import Mathlib

/-!
Verification of the ID3-style decision-tree builder in `dtree.py`
(class `Dtree`: `get_entropy_df`, `get_entropy_feature`,
`get_lowest_entropy_feature`, `build_tree`).

Modelling conventions (shallow embedding):
* A data-frame row is a total map from column name to categorical value,
  both strings (`Row`).  A (sub)table is a `List Row` together with the
  fixed configuration record `Dtree` (column order, target name, feature
  list, depth ceiling), mirroring the Python object's fields
  `df.columns`, `self.target`, `self.features`, `self.max_depth`.
* Floating-point arithmetic is idealised as real arithmetic.  The
  machine-epsilon stabiliser `eps` that `get_entropy_feature` adds to the
  numerator/denominator of its fractions only exists to keep `0/0` and
  `log 0` finite; in the idealisation `Real.log 0 = 0` and `x / 0 = 0`
  absorb those cases exactly (the offending summands are multiplied by a
  zero count, so the junk values never contribute).
* `pandas.unique` returns the distinct values of a column in order of
  first occurrence; it is embedded as `uniqueList`.
* `np.argmax` returns the first index attaining the maximum; it is
  embedded as `argmaxIdx`, which returns `none` on the empty list (where
  NumPy raises `ValueError`).  The subsequent indexing
  `df.keys().drop(target)[...]`, which can raise `IndexError` when the
  feature list is longer than the non-target column list, is embedded
  with `List.get?`; both error paths therefore collapse to `none` and
  theorems that depend on the distinction carry explicit in-bounds
  hypotheses.
* Python's `len(set(entropies)) is 1` is identity comparison against the
  literal `1`; CPython caches small integers, so it is value equality
  with `1` exactly, and is embedded as `(uniqueList entropies).length = 1`.
* `if not node:` tests the selected feature name for *falsiness*: it
  succeeds on `None` and on the empty string, which is embedded as the
  explicit match on `none` and the test `node = ""`.
-/

/-- A row of the table: a total assignment of a string value to every
column name, mirroring one row of the pandas `DataFrame`. -/
abbrev Row : Type := String → String

/-- Configuration of one `Dtree` object: the data-frame's column order
(`df.columns`), the target column, the candidate feature list and the
depth ceiling, exactly the fields set in `Dtree.__init__`. -/
structure Dtree where
  cols : List String
  target : String
  features : List String
  max_depth : Nat

/-- The tree produced by `build_tree`: the Python code returns either a
label (a leaf) or a one-key dict `{feature: {value: child}}`; a child may
also be `None` for an abandoned branch, hence `Option ID3Tree` in the
children association list, which keeps dict insertion order. -/
inductive ID3Tree where
  | leaf (label : String) : ID3Tree
  | node (feature : String) (children : List (String × Option ID3Tree)) : ID3Tree

/-- Remove every occurrence of `a` from a list. -/
def removeVal {α : Type} [DecidableEq α] (a : α) : List α → List α
  | [] => []
  | b :: bs => if b = a then removeVal a bs else b :: removeVal a bs

/-- Distinct values of a list in order of first occurrence: the embedding
of `pandas.unique` (and of `np.unique` where only the number of distinct
values or the sole distinct value matters). -/
def uniqueList {α : Type} [DecidableEq α] : List α → List α
  | [] => []
  | a :: as => a :: removeVal a (uniqueList as)

/-- Maximum of a list of reals (`0` for the empty list, which never
occurs at use sites). -/
noncomputable def listMax : List ℝ → ℝ
  | [] => 0
  | [x] => x
  | x :: y :: ys => max x (listMax (y :: ys))

/-- First index attaining the maximum: the embedding of `np.argmax`.
NumPy raises `ValueError` on an empty input, embedded as `none`. -/
noncomputable def argmaxIdx : List ℝ → Option Nat
  | [] => none
  | [_] => some 0
  | x :: y :: ys =>
    if x < listMax (y :: ys) then (argmaxIdx (y :: ys)).map (fun i => i + 1)
    else some 0

/-- Embedding of `Dtree.get_entropy_df`: base-2 Shannon entropy of the
target column.  For each distinct label value (in first-occurrence
order) the loop adds `-(count/len) * log2 (count/len)` to an accumulator
starting at `0`. -/
noncomputable def get_entropy_df (dt : Dtree) (rows : List Row) : ℝ :=
  let labels := rows.map (fun r => r dt.target)
  (uniqueList labels).foldl
    (fun entropy value =>
      entropy +
        (-((labels.count value : ℝ) / (labels.length : ℝ)) *
          Real.logb 2 ((labels.count value : ℝ) / (labels.length : ℝ)))) 0

/-- Embedding of `Dtree.get_entropy_feature`: conditional entropy of the
target given `feature`, natural logarithm, final absolute value.  For
each distinct feature value the inner loop sums, over the distinct
target values of the whole subtable, `-(num/den) * log (num/den)` where
`num` counts rows with that feature value and that label and `den`
counts rows with that feature value; the outer loop adds
`-(den/len) * inner`.  The Python code stabilises the fractions with a
machine epsilon before the logarithm; in the real-number idealisation
the `num = 0` summand is `-0 * log 0 = 0` exactly, which is the value
the stabiliser approximates. -/
noncomputable def get_entropy_feature (dt : Dtree) (rows : List Row) (feature : String) : ℝ :=
  let target_variables := uniqueList (rows.map (fun r => r dt.target))
  let varList := uniqueList (rows.map (fun r => r feature))
  |varList.foldl
      (fun entropy varVal =>
        let den := (rows.filter (fun r => r feature == varVal)).length
        let entropy_inner := target_variables.foldl
          (fun e tv =>
            let num := ((rows.filter (fun r => r feature == varVal)).filter
                (fun r => r dt.target == tv)).length
            e + (-((num : ℝ) / (den : ℝ)) * Real.log ((num : ℝ) / (den : ℝ)))) 0
        entropy + (-((den : ℝ) / (rows.length : ℝ)) * entropy_inner)) 0|

/-- Embedding of `Dtree.get_lowest_entropy_feature`: gains are computed
for every feature of `self.features` in list order; if the *set* of gain
values is a singleton the function returns `None`; otherwise it indexes
`df.keys().drop(target)` — the data-frame's non-target columns, *not*
the feature list — at the `argmax` position. -/
noncomputable def get_lowest_entropy_feature (dt : Dtree) (rows : List Row) : Option String :=
  let entropies := dt.features.map
    (fun feature => get_entropy_df dt rows - get_entropy_feature dt rows feature)
  if (uniqueList entropies).length = 1 then none
  else (argmaxIdx entropies).bind
    (fun i => (dt.cols.filter (fun c => c != dt.target)).get? i)

mutual

/-- Embedding of `Dtree.build_tree`.  A `tree` argument of `none` is
Python's `tree=None` (the recursion always passes `None`); when a
non-`None` tree is passed the Python code writes into `tree[node]`,
which exists only if the caller passed a dict with that key (otherwise
`KeyError`, unreachable from the recursion); this is embedded by seeding
the children accumulator with the existing children. -/
noncomputable def build_tree (dt : Dtree) (rows : List Row) (tree : Option ID3Tree)
    (depth : Nat) : Option ID3Tree :=
  match get_lowest_entropy_feature dt rows with
  | none => tree
  | some node =>
    if node = "" then tree
    else
      let varList := uniqueList (rows.map (fun r => r node))
      let children0 : List (String × Option ID3Tree) :=
        match tree with
        | none => []
        | some (ID3Tree.node _ cs) => cs
        | some (ID3Tree.leaf _) => []
      some (ID3Tree.node node (children0 ++ build_children dt rows node varList depth))
termination_by (dt.max_depth + 1 - depth, 1, 0)

/-- The `for value in varList:` loop of `Dtree.build_tree`.  The Python
loop mutates `tree[node]`; the embedding returns the list of entries the
loop appends, in iteration order, and `build_tree` concatenates them
onto the pre-existing children.  Crucially `depth` is the loop's mutable
counter: the Python statement `depth += 1` before each recursive call
increments it in place, so later iterations of the same loop observe
and pass the incremented value.  A pure sub-partition (`subtable`, with
distinct labels `inner_variables`) records a leaf holding its sole
label; an impure one at `depth >= max_depth` aborts the whole loop, so
nothing further is appended and the node keeps only what was built
before; otherwise the builder recurses with `tree=None` at the
incremented depth and records the result. -/
noncomputable def build_children (dt : Dtree) (rows : List Row) (node : String)
    (values : List String) (depth : Nat) : List (String × Option ID3Tree) :=
  match values with
  | [] => []
  | value :: rest =>
    if (uniqueList ((rows.filter (fun r => r node == value)).map
        (fun r => r dt.target))).length = 1 then
      (value, some (ID3Tree.leaf ((uniqueList ((rows.filter
        (fun r => r node == value)).map (fun r => r dt.target))).headD ""))) ::
        build_children dt rows node rest depth
    else if hdep : dt.max_depth ≤ depth then []
    else
      (value, build_tree dt (rows.filter (fun r => r node == value)) none (depth + 1)) ::
        build_children dt rows node rest (depth + 1)
termination_by (dt.max_depth + 1 - depth, 0, values.length)

end

mutual

/-- Spec-side reference builder for claim comparison.  Modelled from the
spec: section 4.3 step 3 keeps `depth` fixed throughout one call's
iteration and recurses on an impure sub-partition "with depth+1", i.e.
with depth exactly one greater than the current call's depth.  It is
identical to `build_tree` except that the loop never mutates its own
depth counter. -/
noncomputable def build_tree_claim (dt : Dtree) (rows : List Row) (tree : Option ID3Tree)
    (depth : Nat) : Option ID3Tree :=
  match get_lowest_entropy_feature dt rows with
  | none => tree
  | some node =>
    if node = "" then tree
    else
      let varList := uniqueList (rows.map (fun r => r node))
      let children0 : List (String × Option ID3Tree) :=
        match tree with
        | none => []
        | some (ID3Tree.node _ cs) => cs
        | some (ID3Tree.leaf _) => []
      some (ID3Tree.node node (children0 ++ build_children_claim dt rows node varList depth))
termination_by (dt.max_depth + 1 - depth, 1, 0)

/-- Loop of `build_tree_claim`: as in the spec's section 4.3, the depth
passed to every recursive call of one iteration is the call's own depth
plus one, independent of how many impure values were seen before. -/
noncomputable def build_children_claim (dt : Dtree) (rows : List Row) (node : String)
    (values : List String) (depth : Nat) : List (String × Option ID3Tree) :=
  match values with
  | [] => []
  | value :: rest =>
    if (uniqueList ((rows.filter (fun r => r node == value)).map
        (fun r => r dt.target))).length = 1 then
      (value, some (ID3Tree.leaf ((uniqueList ((rows.filter
        (fun r => r node == value)).map (fun r => r dt.target))).headD ""))) ::
        build_children_claim dt rows node rest depth
    else if hdep : dt.max_depth ≤ depth then []
    else
      (value, build_tree_claim dt (rows.filter (fun r => r node == value)) none (depth + 1)) ::
        build_children_claim dt rows node rest depth
termination_by (dt.max_depth + 1 - depth, 0, values.length)

end

/-- Accumulator pass of `firstOccur`: scan the list left to right and
append each element not seen before. -/
def firstOccurAux {α : Type} [DecidableEq α] : List α → List α → List α
  | acc, [] => acc
  | acc, a :: as =>
    if a ∈ acc then firstOccurAux acc as else firstOccurAux (acc ++ [a]) as

/-- Modelled from the spec: the deterministic "first-occurrence order"
value discovery demanded by the idempotence property, written in the
most literal scan-and-accumulate way, used to characterise
`uniqueList`. -/
def firstOccur {α : Type} [DecidableEq α] (l : List α) : List α :=
  firstOccurAux [] l

/-! Concrete tables used by the witnesses and counterexamples. -/

/-- Row of a two-column table with feature `F` and target `T`. -/
def mkRowFT (f t : String) : Row := fun c => if c = "F" then f else t

/-- Scenario A of the spec: four rows, target `Yes,Yes,No,No`, one
feature `F` with values `a,a,b,b` perfectly correlated with the
target. -/
def rowsA : List Row :=
  [mkRowFT "a" "Yes", mkRowFT "a" "Yes", mkRowFT "b" "No", mkRowFT "b" "No"]

/-- Configuration for scenario A with an arbitrary depth ceiling. -/
def dtA (md : Nat) : Dtree := ⟨["F", "T"], "T", ["F"], md⟩

/-- Row of a three-column table with features `A`, `B` and target `T`. -/
def mkRowB (a b t : String) : Row :=
  fun c => if c = "A" then a else if c = "B" then b else t

/-- Four rows where `B` (values `u,u,w,w`) is perfectly correlated with
the target and `A` is the constant `c0`. -/
def rowsB : List Row :=
  [mkRowB "c0" "u" "Yes", mkRowB "c0" "u" "Yes",
   mkRowB "c0" "w" "No", mkRowB "c0" "w" "No"]

/-- Configuration whose feature list `[B, A]` reverses the data frame's
column order `[A, B]`. -/
def dtB : Dtree := ⟨["A", "B", "T"], "T", ["B", "A"], 5⟩

/-- Row of a three-column table whose first feature is named by the
empty string. -/
def mkRowE (e g t : String) : Row :=
  fun c => if c = "" then e else if c = "G" then g else t

/-- Four rows where the feature named `""` (values `p,p,q,q`) is
perfectly correlated with the target and `G` is constant. -/
def rowsE : List Row :=
  [mkRowE "p" "c0" "Yes", mkRowE "p" "c0" "Yes",
   mkRowE "q" "c0" "No", mkRowE "q" "c0" "No"]

/-- Configuration with the empty-string feature first. -/
def dtE : Dtree := ⟨["", "G", "T"], "T", ["", "G"], 5⟩

/-- Row of a three-column table with features `F`, `H` and target `T`. -/
def mkRowC (f h t : String) : Row :=
  fun c => if c = "F" then f else if c = "H" then h else t

/-- Row `(F=a, H=x1, T=Y)`, used three times. -/
def rC1 : Row := mkRowC "a" "x1" "Y"

/-- Row `(F=a, H=x2, T=N)`. -/
def rC4 : Row := mkRowC "a" "x2" "N"

/-- Row `(F=b, H=x1, T=Y)`. -/
def rC5 : Row := mkRowC "b" "x1" "Y"

/-- Row `(F=b, H=x1, T=N)`, used twice. -/
def rC6 : Row := mkRowC "b" "x1" "N"

/-- Row `(F=b, H=x2, T=Y)`, used twice. -/
def rC8 : Row := mkRowC "b" "x2" "Y"

/-- Nine rows needing three levels of splitting: `F` splits into an `a`
branch (resolved by `H` in one step) and a `b` branch whose `H = x1`
sub-partition is impure with both features constant. -/
def rowsC : List Row := [rC1, rC1, rC1, rC4, rC5, rC6, rC6, rC8, rC8]

/-- Configuration for `rowsC` with depth ceiling 2. -/
def dtC : Dtree := ⟨["F", "H", "T"], "T", ["F", "H"], 2⟩

/-- The `F = a` sub-partition of `rowsC`. -/
def subCa : List Row := [rC1, rC1, rC1, rC4]

/-- The `F = b` sub-partition of `rowsC`. -/
def subCb : List Row := [rC5, rC6, rC6, rC8, rC8]

/-- The `H = x1` sub-partition of `subCb`. -/
def subCbx1 : List Row := [rC5, rC6, rC6]

/-- Two rows with the same feature value and different labels: an impure
partition. -/
def rowsW4 : List Row := [mkRowFT "a" "Y", mkRowFT "a" "N"]

/-- Configuration with depth ceiling 0 for the truncation witness. -/
def dtW4 : Dtree := ⟨["F", "T"], "T", ["F"], 0⟩

/-- Configuration with depth ceiling 1 for the recursion-step witness. -/
def dtW3 : Dtree := ⟨["F", "T"], "T", ["F"], 1⟩

/-! Lemmas about `removeVal` and `uniqueList`. -/

/-- Membership in `removeVal`. -/
theorem mem_removeVal {α : Type} [DecidableEq α] {a x : α} :
    ∀ {l : List α}, x ∈ removeVal a l ↔ x ∈ l ∧ x ≠ a := by
  intro l
  induction l with
  | nil => simp [removeVal]
  | cons b bs ih =>
    by_cases hb : b = a
    · subst hb
      simp [removeVal, ih]
      intro h
      exact fun hx => absurd hx h
    · simp only [removeVal, if_neg hb, List.mem_cons, ih]
      constructor
      · rintro (rfl | ⟨h1, h2⟩)
        · exact ⟨Or.inl rfl, hb⟩
        · exact ⟨Or.inr h1, h2⟩
      · rintro ⟨rfl | h1, h2⟩
        · exact Or.inl rfl
        · exact Or.inr ⟨h1, h2⟩

/-- `removeVal` is a sublist. -/
theorem removeVal_sublist {α : Type} [DecidableEq α] (a : α) :
    ∀ (l : List α), (removeVal a l).Sublist l := by
  intro l
  induction l with
  | nil => simp [removeVal]
  | cons b bs ih =>
    by_cases hb : b = a
    · simp only [removeVal, if_pos hb]
      exact ih.cons b
    · simp only [removeVal, if_neg hb]
      exact ih.cons₂ b

/-- Removing an absent value is the identity. -/
theorem removeVal_of_not_mem {α : Type} [DecidableEq α] {a : α} :
    ∀ {l : List α}, a ∉ l → removeVal a l = l := by
  intro l
  induction l with
  | nil => intro _; rfl
  | cons b bs ih =>
    intro h
    have hb : b ≠ a := fun he => h (he ▸ List.mem_cons_self b bs)
    simp only [removeVal, if_neg hb]
    rw [ih (fun ha => h (List.mem_cons_of_mem b ha))]

/-- Removing a value that every element equals empties the list. -/
theorem removeVal_eq_nil {α : Type} [DecidableEq α] {a : α} :
    ∀ {l : List α}, (∀ x ∈ l, x = a) → removeVal a l = [] := by
  intro l
  induction l with
  | nil => intro _; rfl
  | cons b bs ih =>
    intro h
    have hb : b = a := h b (List.mem_cons_self b bs)
    simp only [removeVal, if_pos hb]
    exact ih (fun x hx => h x (List.mem_cons_of_mem b hx))

/-- `uniqueList` has the same members as the original list. -/
theorem mem_uniqueList {α : Type} [DecidableEq α] {x : α} :
    ∀ {l : List α}, x ∈ uniqueList l ↔ x ∈ l := by
  intro l
  induction l with
  | nil => simp [uniqueList]
  | cons a as ih =>
    simp only [uniqueList, List.mem_cons, mem_removeVal, ih]
    constructor
    · rintro (rfl | ⟨h1, _⟩)
      · exact Or.inl rfl
      · exact Or.inr h1
    · rintro (rfl | h1)
      · exact Or.inl rfl
      · by_cases hx : x = a
        · exact Or.inl hx
        · exact Or.inr ⟨h1, hx⟩

/-- `uniqueList` is a sublist of the original list. -/
theorem uniqueList_sublist {α : Type} [DecidableEq α] :
    ∀ (l : List α), (uniqueList l).Sublist l := by
  intro l
  induction l with
  | nil => simp [uniqueList]
  | cons a as ih =>
    simp only [uniqueList]
    exact ((removeVal_sublist a (uniqueList as)).trans ih).cons₂ a

/-- `removeVal` preserves `Nodup`. -/
theorem nodup_removeVal {α : Type} [DecidableEq α] {a : α} :
    ∀ {l : List α}, l.Nodup → (removeVal a l).Nodup :=
  fun h => (removeVal_sublist a _).nodup h

/-- `uniqueList` has no duplicates. -/
theorem nodup_uniqueList {α : Type} [DecidableEq α] :
    ∀ (l : List α), (uniqueList l).Nodup := by
  intro l
  induction l with
  | nil => simp [uniqueList]
  | cons a as ih =>
    simp only [uniqueList, List.nodup_cons]
    refine ⟨fun hmem => ?_, nodup_removeVal ih⟩
    exact (mem_removeVal.mp hmem).2 rfl

/-- `uniqueList` is empty exactly on the empty list. -/
theorem uniqueList_eq_nil {α : Type} [DecidableEq α] :
    ∀ {l : List α}, uniqueList l = [] ↔ l = [] := by
  intro l
  cases l with
  | nil => simp [uniqueList]
  | cons a as => simp [uniqueList]

/-- The set of values of a list is a singleton exactly when all its
elements are equal (for a non-empty list). -/
theorem uniqueList_length_eq_one {α : Type} [DecidableEq α] {l : List α} (hl : l ≠ []) :
    (uniqueList l).length = 1 ↔ ∀ a ∈ l, ∀ b ∈ l, a = b := by
  constructor
  · intro h a ha b hb
    obtain ⟨c, hc⟩ := List.length_eq_one.mp h
    have hac : a = c := by
      have := mem_uniqueList.mpr ha
      rw [hc] at this
      simpa using this
    have hbc : b = c := by
      have := mem_uniqueList.mpr hb
      rw [hc] at this
      simpa using this
    rw [hac, hbc]
  · intro h
    cases l with
    | nil => exact absurd rfl hl
    | cons a as =>
      have : removeVal a (uniqueList as) = [] := by
        apply removeVal_eq_nil
        intro x hx
        exact h x (List.mem_cons_of_mem a (mem_uniqueList.mp hx)) a
          (List.mem_cons_self a as)
      simp [uniqueList, this]

/-! Lemmas about `listMax` and `argmaxIdx`. -/

/-- The maximum of a non-empty list is one of its elements. -/
theorem listMax_mem : ∀ {l : List ℝ}, l ≠ [] → listMax l ∈ l := by
  intro l
  induction l with
  | nil => intro h; exact absurd rfl h
  | cons x xs ih =>
    intro _
    cases xs with
    | nil => simp [listMax]
    | cons y ys =>
      simp only [listMax]
      rcases le_total x (listMax (y :: ys)) with h | h
      · rw [max_eq_right h]
        exact List.mem_cons_of_mem x (ih (by simp))
      · rw [max_eq_left h]
        exact List.mem_cons_self x (y :: ys)

/-- Every element is at most the maximum. -/
theorem le_listMax : ∀ {l : List ℝ} {x : ℝ}, x ∈ l → x ≤ listMax l := by
  intro l
  induction l with
  | nil => intro x hx; simp at hx
  | cons a as ih =>
    intro x hx
    cases as with
    | nil =>
      simp only [List.mem_singleton] at hx
      simp [listMax, hx]
    | cons y ys =>
      simp only [listMax, le_max_iff]
      rcases List.mem_cons.mp hx with h | h
      · exact Or.inl (le_of_eq h)
      · exact Or.inr (ih h)

/-- `argmaxIdx` on a non-empty list returns the first index attaining
the maximum: the index is in bounds, its entry dominates every entry,
and strictly dominates every earlier entry. -/
theorem argmaxIdx_spec :
    ∀ (l : List ℝ), l ≠ [] →
      ∃ i, ∃ hi : i < l.length, argmaxIdx l = some i ∧
        (∀ j, ∀ hj : j < l.length, l.get ⟨j, hj⟩ ≤ l.get ⟨i, hi⟩) ∧
        (∀ j, ∀ hj : j < i, l.get ⟨j, Nat.lt_trans hj hi⟩ < l.get ⟨i, hi⟩) := by
  intro l
  induction l with
  | nil => intro h; exact absurd rfl h
  | cons x xs ih =>
    intro _
    cases xs with
    | nil =>
      refine ⟨0, by simp, by simp [argmaxIdx], ?_, ?_⟩
      · intro j hj
        have hj0 : j = 0 := by
          simp only [List.length_cons, List.length_nil] at hj
          omega
        subst hj0
        exact le_refl _
      · intro j hj
        exact absurd hj (Nat.not_lt_zero j)
    | cons y ys =>
      by_cases hlt : x < listMax (y :: ys)
      · obtain ⟨i, hi, heq, hmax, hfirst⟩ := ih (by simp)
        have hmle : listMax (y :: ys) ≤ (y :: ys).get ⟨i, hi⟩ := by
          obtain ⟨n, hn⟩ := List.mem_iff_get.mp (listMax_mem (l := y :: ys) (by simp))
          rw [← hn]
          exact hmax n.1 n.2
        refine ⟨i + 1, by simpa using Nat.succ_lt_succ hi, ?_, ?_, ?_⟩
        · simp [argmaxIdx, hlt, heq]
        · intro j hj
          cases j with
          | zero =>
            simpa using le_of_lt (lt_of_lt_of_le hlt hmle)
          | succ j =>
            have hj2 : j < (y :: ys).length := by
              simpa using Nat.lt_of_succ_lt_succ hj
            simpa using hmax j hj2
        · intro j hj
          cases j with
          | zero =>
            simpa using lt_of_lt_of_le hlt hmle
          | succ j =>
            have hj2 : j < i := Nat.lt_of_succ_lt_succ hj
            simpa using hfirst j hj2
      · refine ⟨0, by simp, by simp [argmaxIdx, hlt], ?_, ?_⟩
        · intro j hj
          cases j with
          | zero => exact le_refl _
          | succ j =>
            have hj2 : j < (y :: ys).length := by
              simpa using Nat.lt_of_succ_lt_succ hj
            have hmem : (y :: ys).get ⟨j, hj2⟩ ∈ y :: ys := List.get_mem _ _ _
            have h1 : (y :: ys).get ⟨j, hj2⟩ ≤ listMax (y :: ys) := le_listMax hmem
            have h2 : listMax (y :: ys) ≤ x := not_lt.mp hlt
            simpa using le_trans h1 h2
        · intro j hj
          exact absurd hj (Nat.not_lt_zero j)

/-! Summation lemmas used for the entropy values. -/

/-- A left fold that only adds terms is the starting value plus the sum
of the mapped list. -/
theorem foldl_add_eq_sum {α M : Type} [AddCommMonoid M] (f : α → M) :
    ∀ (l : List α) (c : M), l.foldl (fun e v => e + f v) c = c + (l.map f).sum := by
  intro l
  induction l with
  | nil => intro c; simp
  | cons a as ih =>
    intro c
    simp only [List.foldl_cons, List.map_cons, List.sum_cons]
    rw [ih (c + f a), add_assoc]

/-- Sum of a function that is constant on the list. -/
theorem sum_map_const {α M : Type} [AddCommMonoid M] {f : α → M} {c : M} :
    ∀ {l : List α}, (∀ x ∈ l, f x = c) → (l.map f).sum = l.length • c := by
  intro l
  induction l with
  | nil => intro _; simp
  | cons a as ih =>
    intro h
    simp only [List.map_cons, List.sum_cons, List.length_cons]
    rw [h a (List.mem_cons_self a as), ih (fun x hx => h x (List.mem_cons_of_mem a hx)),
      succ_nsmul, add_comm]

/-- Splitting the sum over a duplicate-free list at one of its
elements. -/
theorem sum_map_removeVal {α M : Type} [DecidableEq α] [AddCommMonoid M] {f : α → M} {a : α} :
    ∀ {l : List α}, l.Nodup → a ∈ l →
      (l.map f).sum = f a + (((removeVal a l).map f)).sum := by
  intro l
  induction l with
  | nil => intro _ h; simp at h
  | cons b bs ih =>
    intro hnd hmem
    rcases List.mem_cons.mp hmem with rfl | hmem2
    · have hnotin : a ∉ bs := (List.nodup_cons.mp hnd).1
      simp [removeVal, removeVal_of_not_mem hnotin]
    · have hba : b ≠ a := by
        rintro rfl
        exact (List.nodup_cons.mp hnd).1 hmem2
      simp only [removeVal, if_neg hba, List.map_cons, List.sum_cons]
      rw [ih (List.nodup_cons.mp hnd).2 hmem2, add_left_comm]

/-- The length of a list is the sum, over its distinct values, of each
value's number of occurrences. -/
theorem length_eq_sum_count {α : Type} [DecidableEq α] :
    ∀ (l : List α), ((uniqueList l).map (fun v => l.count v)).sum = l.length := by
  intro l
  induction l with
  | nil => simp [uniqueList]
  | cons a as ih =>
    simp only [uniqueList, List.map_cons, List.sum_cons, List.count_cons_self,
      List.length_cons]
    have hmap : (removeVal a (uniqueList as)).map (fun v => (a :: as).count v) =
        (removeVal a (uniqueList as)).map (fun v => as.count v) := by
      apply List.map_congr_left
      intro v hv
      exact List.count_cons_of_ne (mem_removeVal.mp hv).2 as
    rw [hmap]
    by_cases hmem : a ∈ as
    · have hsplit := sum_map_removeVal (f := fun v => as.count v)
        (nodup_uniqueList as) (mem_uniqueList.mpr hmem)
      simp only at hsplit
      omega
    · have hnotu : a ∉ uniqueList as := fun h => hmem (mem_uniqueList.mp h)
      rw [removeVal_of_not_mem hnotu, ih]
      have : as.count a = 0 := List.count_eq_zero.mpr hmem
      omega

/-! Lemmas relating `uniqueList` to the spec's first-occurrence scan. -/

/-- Removals of two values commute. -/
theorem removeVal_comm {α : Type} [DecidableEq α] (a b : α) :
    ∀ (l : List α), removeVal b (removeVal a l) = removeVal a (removeVal b l) := by
  intro l
  induction l with
  | nil => rfl
  | cons c cs ih =>
    by_cases hca : c = a
    · by_cases hcb : c = b
      · have hab : a = b := hca.symm.trans hcb
        subst hab
        rfl
      · rw [show removeVal a (c :: cs) = removeVal a cs by simp [removeVal, hca]]
        rw [show removeVal b (c :: cs) = c :: removeVal b cs by simp [removeVal, hcb]]
        rw [show removeVal a (c :: removeVal b cs) = removeVal a (removeVal b cs) by
          simp [removeVal, hca]]
        exact ih
    · by_cases hcb : c = b
      · rw [show removeVal b (c :: cs) = removeVal b cs by simp [removeVal, hcb]]
        rw [show removeVal a (c :: cs) = c :: removeVal a cs by simp [removeVal, hca]]
        rw [show removeVal b (c :: removeVal a cs) = removeVal b (removeVal a cs) by
          simp [removeVal, hcb]]
        exact ih
      · rw [show removeVal a (c :: cs) = c :: removeVal a cs by simp [removeVal, hca]]
        rw [show removeVal b (c :: cs) = c :: removeVal b cs by simp [removeVal, hcb]]
        rw [show removeVal b (c :: removeVal a cs) = c :: removeVal b (removeVal a cs) by
          simp [removeVal, hcb]]
        rw [show removeVal a (c :: removeVal b cs) = c :: removeVal a (removeVal b cs) by
          simp [removeVal, hca]]
        rw [ih]

/-- Removing a value twice is the same as removing it once. -/
theorem removeVal_idem {α : Type} [DecidableEq α] (a : α) (l : List α) :
    removeVal a (removeVal a l) = removeVal a l :=
  removeVal_of_not_mem (fun h => (mem_removeVal.mp h).2 rfl)

/-- Deduplication commutes with removal. -/
theorem uniqueList_removeVal {α : Type} [DecidableEq α] (a : α) :
    ∀ (l : List α), uniqueList (removeVal a l) = removeVal a (uniqueList l) := by
  intro l
  induction l with
  | nil => rfl
  | cons b bs ih =>
    by_cases hba : b = a
    · subst hba
      simp [removeVal, uniqueList, ih, removeVal_idem]
    · simp only [removeVal, uniqueList, ih, hba, if_neg, ite_false]
      simp [hba, removeVal_comm a b]

/-- Prepending a value already scheduled for removal does not change the
result of folding `removeVal` over the removal list. -/
theorem foldl_removeVal_cons_mem {α : Type} [DecidableEq α] {a : α} :
    ∀ {acc : List α} (init : List α), a ∈ acc →
      acc.foldl (fun m x => removeVal x m) (a :: init) =
        acc.foldl (fun m x => removeVal x m) init := by
  intro acc
  induction acc with
  | nil => intro init h; simp at h
  | cons b bs ih =>
    intro init hmem
    by_cases hab : a = b
    · subst hab
      simp [List.foldl_cons, removeVal]
    · have hmem2 : a ∈ bs := by
        rcases List.mem_cons.mp hmem with h | h
        · exact absurd h hab
        · exact h
      simp only [List.foldl_cons, removeVal, if_neg hab]
      exact ih (removeVal b init) hmem2

/-- Prepending a value not scheduled for removal commutes with the
fold. -/
theorem foldl_removeVal_cons_not_mem {α : Type} [DecidableEq α] {a : α} :
    ∀ {acc : List α} (init : List α), a ∉ acc →
      acc.foldl (fun m x => removeVal x m) (a :: init) =
        a :: acc.foldl (fun m x => removeVal x m) init := by
  intro acc
  induction acc with
  | nil => intro init _; rfl
  | cons b bs ih =>
    intro init hmem
    have hab : a ≠ b := fun h => hmem (h ▸ List.mem_cons_self b bs)
    simp only [List.foldl_cons, removeVal, if_neg hab]
    exact ih (removeVal b init) (fun h => hmem (List.mem_cons_of_mem b h))

/-- The invariant of the first-occurrence scan: it extends the
accumulator with the deduplication of what remains after deleting every
already-seen value. -/
theorem firstOccurAux_eq {α : Type} [DecidableEq α] :
    ∀ (l acc : List α),
      firstOccurAux acc l =
        acc ++ uniqueList (acc.foldl (fun m x => removeVal x m) l) := by
  intro l
  induction l with
  | nil =>
    intro acc
    have hnil : acc.foldl (fun m x => removeVal x m) ([] : List α) = [] := by
      induction acc with
      | nil => rfl
      | cons b bs ihb => simp only [List.foldl_cons, removeVal]; exact ihb
    simp [firstOccurAux, hnil, uniqueList]
  | cons a as ih =>
    intro acc
    by_cases hmem : a ∈ acc
    · simp only [firstOccurAux, if_pos hmem, ih, foldl_removeVal_cons_mem _ hmem]
    · simp only [firstOccurAux, if_neg hmem, ih, foldl_removeVal_cons_not_mem _ hmem]
      have hfold : ∀ (m : List α) (l2 : List α),
          (m ++ [a]).foldl (fun s x => removeVal x s) l2 =
            removeVal a (m.foldl (fun s x => removeVal x s) l2) := by
        intro m l2
        rw [List.foldl_append]
        rfl
      rw [hfold, uniqueList]
      simp only [uniqueList_removeVal]
      simp [List.append_assoc]

/-! Arithmetic facts about logarithms used by the concrete tables. -/

/-- The summand of an entropy, for a probability, is non-negative. -/
theorem negMulLog_nonneg {x : ℝ} (h0 : 0 ≤ x) (h1 : x ≤ 1) : 0 ≤ -x * Real.log x := by
  rcases eq_or_lt_of_le h0 with h | h
  · simp [← h]
  · have hlog : Real.log x ≤ 0 := Real.log_nonpos h0 h1
    have := mul_nonneg (le_of_lt h) (neg_nonneg.mpr hlog)
    nlinarith

/-- `log 2` is positive. -/
theorem log_two_pos : 0 < Real.log 2 := Real.log_pos (by norm_num)

/-- `log2 (2/4) = -1`, in the cast shape produced by the entropy
evaluations. -/
theorem logb_two_half : Real.logb 2 ((2 : ℝ) / 4) = -1 := by
  rw [show ((2 : ℝ) / 4) = (2 : ℝ)⁻¹ by norm_num, Real.logb_inv,
    Real.logb_self_eq_one (by norm_num)]

/-- Key inequality for the root split of `rowsC`:
`2^12 * 5^5 < 3^15`. -/
theorem log_ineq_root : 12 * Real.log 2 + 5 * Real.log 5 < 15 * Real.log 3 := by
  have h1 : (12 : ℝ) * Real.log 2 + 5 * Real.log 5 =
      Real.log ((2 : ℝ) ^ (12 : ℕ) * (5 : ℝ) ^ (5 : ℕ)) := by
    rw [Real.log_mul (by positivity) (by positivity), Real.log_pow, Real.log_pow]
    push_cast
    ring
  have h2 : (15 : ℝ) * Real.log 3 = Real.log ((3 : ℝ) ^ (15 : ℕ)) := by
    rw [Real.log_pow]
    push_cast
    ring
  rw [h1, h2]
  apply Real.log_lt_log (by positivity)
  norm_num

/-- Key inequality for the `a` branch of `rowsC`: `3^3 < 2^8`. -/
theorem log_ineq_a : 3 * Real.log 3 < 8 * Real.log 2 := by
  have h1 : (3 : ℝ) * Real.log 3 = Real.log ((3 : ℝ) ^ (3 : ℕ)) := by
    rw [Real.log_pow]
    push_cast
    ring
  have h2 : (8 : ℝ) * Real.log 2 = Real.log ((2 : ℝ) ^ (8 : ℕ)) := by
    rw [Real.log_pow]
    push_cast
    ring
  rw [h1, h2]
  apply Real.log_lt_log (by positivity)
  norm_num

/-- Key inequality for the `b` branch of `rowsC`: `3^6 < 5^5`. -/
theorem log_ineq_b : 6 * Real.log 3 < 5 * Real.log 5 := by
  have h1 : (6 : ℝ) * Real.log 3 = Real.log ((3 : ℝ) ^ (6 : ℕ)) := by
    rw [Real.log_pow]
    push_cast
    ring
  have h2 : (5 : ℝ) * Real.log 5 = Real.log ((5 : ℝ) ^ (5 : ℕ)) := by
    rw [Real.log_pow]
    push_cast
    ring
  rw [h1, h2]
  apply Real.log_lt_log (by positivity)
  norm_num

/-! Evaluation of scenario A (table `rowsA`). -/

theorem entropy_df_A (md : Nat) : get_entropy_df (dtA md) rowsA = 1 := by
  simp only [get_entropy_df]
  rw [show rowsA.map (fun r => r (dtA md).target) = ["Yes", "Yes", "No", "No"] from rfl]
  rw [show uniqueList ["Yes", "Yes", "No", "No"] = ["Yes", "No"] from rfl]
  simp only [List.foldl_cons, List.foldl_nil]
  rw [show (["Yes", "Yes", "No", "No"] : List String).count "Yes" = 2 from rfl]
  rw [show (["Yes", "Yes", "No", "No"] : List String).count "No" = 2 from rfl]
  rw [show (["Yes", "Yes", "No", "No"] : List String).length = 4 from rfl]
  push_cast
  rw [logb_two_half]
  norm_num

theorem entropy_feature_A (md : Nat) : get_entropy_feature (dtA md) rowsA "F" = 0 := by
  simp only [get_entropy_feature]
  rw [show (dtA md).target = "T" from rfl]
  rw [show rowsA.map (fun r => r "T") = ["Yes", "Yes", "No", "No"] from rfl]
  rw [show rowsA.map (fun r => r "F") = ["a", "a", "b", "b"] from rfl]
  rw [show uniqueList ["Yes", "Yes", "No", "No"] = ["Yes", "No"] from rfl]
  rw [show uniqueList ["a", "a", "b", "b"] = ["a", "b"] from rfl]
  simp only [List.foldl_cons, List.foldl_nil]
  rw [show ((rowsA.filter (fun r => r "F" == "a")).filter
      (fun r => r "T" == "Yes")).length = 2 from rfl]
  rw [show ((rowsA.filter (fun r => r "F" == "a")).filter
      (fun r => r "T" == "No")).length = 0 from rfl]
  rw [show ((rowsA.filter (fun r => r "F" == "b")).filter
      (fun r => r "T" == "Yes")).length = 0 from rfl]
  rw [show ((rowsA.filter (fun r => r "F" == "b")).filter
      (fun r => r "T" == "No")).length = 2 from rfl]
  rw [show (rowsA.filter (fun r => r "F" == "a")).length = 2 from rfl]
  rw [show (rowsA.filter (fun r => r "F" == "b")).length = 2 from rfl]
  rw [show (rowsA : List Row).length = 4 from rfl]
  push_cast
  norm_num [Real.log_zero, Real.log_one]

theorem sel_A (md : Nat) : get_lowest_entropy_feature (dtA md) rowsA = none := by
  simp only [get_lowest_entropy_feature]
  rw [show (dtA md).features = ["F"] from rfl]
  simp [uniqueList, removeVal]

theorem build_A (md : Nat) : build_tree (dtA md) rowsA none 0 = none := by
  rw [build_tree, sel_A md]

/-! Evaluation of the argmax-mismatch table `rowsB` and the
empty-string-feature table `rowsE`. -/

theorem entropy_feature_B_A : get_entropy_feature dtB rowsB "A" = Real.log 2 := by
  simp only [get_entropy_feature]
  rw [show (dtB).target = "T" from rfl]
  rw [show rowsB.map (fun r => r "T") = ["Yes", "Yes", "No", "No"] from rfl]
  rw [show rowsB.map (fun r => r "A") = ["c0", "c0", "c0", "c0"] from rfl]
  rw [show uniqueList ["Yes", "Yes", "No", "No"] = ["Yes", "No"] from rfl]
  rw [show uniqueList ["c0", "c0", "c0", "c0"] = ["c0"] from rfl]
  simp only [List.foldl_cons, List.foldl_nil]
  rw [show ((rowsB.filter (fun r => r "A" == "c0")).filter
      (fun r => r "T" == "Yes")).length = 2 from rfl]
  rw [show ((rowsB.filter (fun r => r "A" == "c0")).filter
      (fun r => r "T" == "No")).length = 2 from rfl]
  rw [show (rowsB.filter (fun r => r "A" == "c0")).length = 4 from rfl]
  rw [show (rowsB : List Row).length = 4 from rfl]
  push_cast
  rw [show ((2:ℝ)/4) = 2⁻¹ by norm_num, Real.log_inv, show ((4:ℝ)/4) = 1 by norm_num]
  rw [show (0 + -1 * (0 + -2⁻¹ * -Real.log 2 + -2⁻¹ * -Real.log 2) : ℝ) = -Real.log 2 by ring]
  rw [abs_neg, abs_of_nonneg (le_of_lt log_two_pos)]

theorem entropy_feature_B_B : get_entropy_feature dtB rowsB "B" = 0 := by
  simp only [get_entropy_feature]
  rw [show (dtB).target = "T" from rfl]
  rw [show rowsB.map (fun r => r "T") = ["Yes", "Yes", "No", "No"] from rfl]
  rw [show rowsB.map (fun r => r "B") = ["u", "u", "w", "w"] from rfl]
  rw [show uniqueList ["Yes", "Yes", "No", "No"] = ["Yes", "No"] from rfl]
  rw [show uniqueList ["u", "u", "w", "w"] = ["u", "w"] from rfl]
  simp only [List.foldl_cons, List.foldl_nil]
  rw [show ((rowsB.filter (fun r => r "B" == "u")).filter
      (fun r => r "T" == "Yes")).length = 2 from rfl]
  rw [show ((rowsB.filter (fun r => r "B" == "u")).filter
      (fun r => r "T" == "No")).length = 0 from rfl]
  rw [show ((rowsB.filter (fun r => r "B" == "w")).filter
      (fun r => r "T" == "Yes")).length = 0 from rfl]
  rw [show ((rowsB.filter (fun r => r "B" == "w")).filter
      (fun r => r "T" == "No")).length = 2 from rfl]
  rw [show (rowsB.filter (fun r => r "B" == "u")).length = 2 from rfl]
  rw [show (rowsB.filter (fun r => r "B" == "w")).length = 2 from rfl]
  rw [show (rowsB : List Row).length = 4 from rfl]
  push_cast
  norm_num [Real.log_zero, Real.log_one]

theorem sel_B : get_lowest_entropy_feature dtB rowsB = some "A" := by
  simp only [get_lowest_entropy_feature]
  rw [show dtB.features = ["B", "A"] from rfl]
  simp only [List.map_cons, List.map_nil]
  rw [entropy_feature_B_B, entropy_feature_B_A]
  have hne : ¬(get_entropy_df dtB rowsB - Real.log 2 = get_entropy_df dtB rowsB - 0) := by
    intro h
    have h2 : Real.log 2 = 0 := by linarith
    exact absurd h2 (ne_of_gt log_two_pos)
  simp only [uniqueList, removeVal]
  rw [if_neg hne]
  simp only [List.length_cons, List.length_nil]
  rw [if_neg (by norm_num : ¬(0 + 1 + 1 = 1))]
  simp only [argmaxIdx, listMax]
  rw [if_neg (not_lt.mpr (by linarith [log_two_pos] :
    get_entropy_df dtB rowsB - Real.log 2 ≤ get_entropy_df dtB rowsB - 0))]
  simp only [Option.bind]
  rw [show (dtB.cols.filter (fun c => c != dtB.target)) = ["A", "B"] from rfl]
  rfl

theorem entropy_feature_E_empty : get_entropy_feature dtE rowsE "" = 0 := by
  simp only [get_entropy_feature]
  rw [show (dtE).target = "T" from rfl]
  rw [show rowsE.map (fun r => r "T") = ["Yes", "Yes", "No", "No"] from rfl]
  rw [show rowsE.map (fun r => r "") = ["p", "p", "q", "q"] from rfl]
  rw [show uniqueList ["Yes", "Yes", "No", "No"] = ["Yes", "No"] from rfl]
  rw [show uniqueList ["p", "p", "q", "q"] = ["p", "q"] from rfl]
  simp only [List.foldl_cons, List.foldl_nil]
  rw [show ((rowsE.filter (fun r => r "" == "p")).filter
      (fun r => r "T" == "Yes")).length = 2 from rfl]
  rw [show ((rowsE.filter (fun r => r "" == "p")).filter
      (fun r => r "T" == "No")).length = 0 from rfl]
  rw [show ((rowsE.filter (fun r => r "" == "q")).filter
      (fun r => r "T" == "Yes")).length = 0 from rfl]
  rw [show ((rowsE.filter (fun r => r "" == "q")).filter
      (fun r => r "T" == "No")).length = 2 from rfl]
  rw [show (rowsE.filter (fun r => r "" == "p")).length = 2 from rfl]
  rw [show (rowsE.filter (fun r => r "" == "q")).length = 2 from rfl]
  rw [show (rowsE : List Row).length = 4 from rfl]
  push_cast
  norm_num [Real.log_zero, Real.log_one]

theorem entropy_feature_E_G : get_entropy_feature dtE rowsE "G" = Real.log 2 := by
  simp only [get_entropy_feature]
  rw [show (dtE).target = "T" from rfl]
  rw [show rowsE.map (fun r => r "T") = ["Yes", "Yes", "No", "No"] from rfl]
  rw [show rowsE.map (fun r => r "G") = ["c0", "c0", "c0", "c0"] from rfl]
  rw [show uniqueList ["Yes", "Yes", "No", "No"] = ["Yes", "No"] from rfl]
  rw [show uniqueList ["c0", "c0", "c0", "c0"] = ["c0"] from rfl]
  simp only [List.foldl_cons, List.foldl_nil]
  rw [show ((rowsE.filter (fun r => r "G" == "c0")).filter
      (fun r => r "T" == "Yes")).length = 2 from rfl]
  rw [show ((rowsE.filter (fun r => r "G" == "c0")).filter
      (fun r => r "T" == "No")).length = 2 from rfl]
  rw [show (rowsE.filter (fun r => r "G" == "c0")).length = 4 from rfl]
  rw [show (rowsE : List Row).length = 4 from rfl]
  push_cast
  rw [show ((2:ℝ)/4) = 2⁻¹ by norm_num, Real.log_inv, show ((4:ℝ)/4) = 1 by norm_num]
  rw [show (0 + -1 * (0 + -2⁻¹ * -Real.log 2 + -2⁻¹ * -Real.log 2) : ℝ) = -Real.log 2 by ring]
  rw [abs_neg, abs_of_nonneg (le_of_lt log_two_pos)]

theorem sel_E : get_lowest_entropy_feature dtE rowsE = some "" := by
  simp only [get_lowest_entropy_feature]
  rw [show dtE.features = ["", "G"] from rfl]
  simp only [List.map_cons, List.map_nil]
  rw [entropy_feature_E_empty, entropy_feature_E_G]
  have hne : ¬(get_entropy_df dtE rowsE - Real.log 2 = get_entropy_df dtE rowsE - 0) := by
    intro h
    have h2 : Real.log 2 = 0 := by linarith
    exact absurd h2 (ne_of_gt log_two_pos)
  simp only [uniqueList, removeVal]
  rw [if_neg hne]
  simp only [List.length_cons, List.length_nil]
  rw [if_neg (by norm_num : ¬(0 + 1 + 1 = 1))]
  simp only [argmaxIdx, listMax]
  rw [if_neg (not_lt.mpr (by linarith [log_two_pos] :
    get_entropy_df dtE rowsE - Real.log 2 ≤ get_entropy_df dtE rowsE - 0))]
  simp only [Option.bind]
  rw [show (dtE.cols.filter (fun c => c != dtE.target)) = ["", "G"] from rfl]
  rfl

theorem build_E (tree : Option ID3Tree) (depth : Nat) :
    build_tree dtE rowsE tree depth = tree := by
  match tree with
  | none =>
    rw [build_tree.eq_1, sel_E]
    simp
  | some (ID3Tree.leaf l) =>
    rw [build_tree.eq_3, sel_E]
    simp
  | some (ID3Tree.node f cs) =>
    rw [build_tree.eq_2, sel_E]
    simp

/-! General control-flow lemmas for `build_tree`. -/

/-- When feature selection returns `None`, `build_tree` returns its
`tree` argument unchanged, whatever it is. -/
theorem build_tree_sel_none (dt : Dtree) (rows : List Row) (tree : Option ID3Tree)
    (depth : Nat) (h : get_lowest_entropy_feature dt rows = none) :
    build_tree dt rows tree depth = tree := by
  match tree with
  | none =>
    rw [build_tree.eq_1, h]
  | some (ID3Tree.leaf l) =>
    rw [build_tree.eq_3, h]
  | some (ID3Tree.node f cs) =>
    rw [build_tree.eq_2, h]

/-- When feature selection returns the empty-string feature name, the
truthiness test `if not node:` fires just as for `None`, and
`build_tree` returns its `tree` argument unchanged. -/
theorem build_tree_sel_empty (dt : Dtree) (rows : List Row) (tree : Option ID3Tree)
    (depth : Nat) (h : get_lowest_entropy_feature dt rows = some "") :
    build_tree dt rows tree depth = tree := by
  match tree with
  | none =>
    rw [build_tree.eq_1, h]
    simp
  | some (ID3Tree.leaf l) =>
    rw [build_tree.eq_3, h]
    simp
  | some (ID3Tree.node f cs) =>
    rw [build_tree.eq_2, h]
    simp

/-- One step of the value loop on a pure sub-partition: a leaf holding
the sole label is appended and the loop continues at the same depth. -/
theorem build_children_pure_step (dt : Dtree) (rows : List Row) (node value : String)
    (rest : List String) (depth : Nat)
    (hpure : (uniqueList ((rows.filter (fun r => r node == value)).map
      (fun r => r dt.target))).length = 1) :
    build_children dt rows node (value :: rest) depth =
      (value, some (ID3Tree.leaf ((uniqueList ((rows.filter
        (fun r => r node == value)).map (fun r => r dt.target))).headD ""))) ::
        build_children dt rows node rest depth := by
  rw [build_children]
  simp only [hpure, if_pos]

/-- One step of the value loop on an impure sub-partition below the
depth ceiling: the loop recurses at `depth + 1` and also *continues* at
`depth + 1`. -/
theorem build_children_impure_step (dt : Dtree) (rows : List Row) (node value : String)
    (rest : List String) (depth : Nat)
    (himp : (uniqueList ((rows.filter (fun r => r node == value)).map
      (fun r => r dt.target))).length ≠ 1)
    (hdep : depth < dt.max_depth) :
    build_children dt rows node (value :: rest) depth =
      (value, build_tree dt (rows.filter (fun r => r node == value)) none (depth + 1)) ::
        build_children dt rows node rest (depth + 1) := by
  rw [build_children]
  simp only [himp, if_neg, dif_neg (not_le.mpr hdep), if_false]

/-- One step of the value loop on an impure sub-partition at or above
the depth ceiling: the loop aborts, appending nothing for this value
and nothing for any of the remaining values. -/
theorem build_children_truncate_step (dt : Dtree) (rows : List Row) (node value : String)
    (rest : List String) (depth : Nat)
    (himp : (uniqueList ((rows.filter (fun r => r node == value)).map
      (fun r => r dt.target))).length ≠ 1)
    (hdep : dt.max_depth ≤ depth) :
    build_children dt rows node (value :: rest) depth = [] := by
  rw [build_children]
  simp only [himp, if_neg, dif_pos hdep, if_false]

/-- The value loop appends nothing once the values are exhausted. -/
theorem build_children_nil (dt : Dtree) (rows : List Row) (node : String) (depth : Nat) :
    build_children dt rows node [] depth = [] := by
  rw [build_children]

/-- When feature selection returns `None`, the spec-side builder also
returns its `tree` argument; only the recursion depths differ between
the two builders. -/
theorem build_tree_claim_sel_none (dt : Dtree) (rows : List Row) (depth : Nat)
    (h : get_lowest_entropy_feature dt rows = none) :
    build_tree_claim dt rows none depth = none := by
  rw [build_tree_claim.eq_1, h]

/-- Nil case of the spec-side value loop. -/
theorem build_children_claim_nil (dt : Dtree) (rows : List Row) (node : String)
    (depth : Nat) : build_children_claim dt rows node [] depth = [] := by
  rw [build_children_claim]

/-- Pure step of the spec-side value loop. -/
theorem build_children_claim_pure_step (dt : Dtree) (rows : List Row) (node value : String)
    (rest : List String) (depth : Nat)
    (hpure : (uniqueList ((rows.filter (fun r => r node == value)).map
      (fun r => r dt.target))).length = 1) :
    build_children_claim dt rows node (value :: rest) depth =
      (value, some (ID3Tree.leaf ((uniqueList ((rows.filter
        (fun r => r node == value)).map (fun r => r dt.target))).headD ""))) ::
        build_children_claim dt rows node rest depth := by
  rw [build_children_claim]
  simp only [hpure, if_pos]

/-- Impure step of the spec-side value loop below the ceiling: the
recursion is at `depth + 1` but the loop continues at `depth`. -/
theorem build_children_claim_impure_step (dt : Dtree) (rows : List Row)
    (node value : String) (rest : List String) (depth : Nat)
    (himp : (uniqueList ((rows.filter (fun r => r node == value)).map
      (fun r => r dt.target))).length ≠ 1)
    (hdep : depth < dt.max_depth) :
    build_children_claim dt rows node (value :: rest) depth =
      (value, build_tree_claim dt (rows.filter (fun r => r node == value))
        none (depth + 1)) :: build_children_claim dt rows node rest depth := by
  rw [build_children_claim]
  simp only [himp, if_neg, dif_neg (not_le.mpr hdep), if_false]

/-! Evaluation of the three-level table `rowsC` under both the code's
semantics and the spec's per-call depth semantics. -/

theorem log_frac34 : Real.log ((3:ℝ)/4) = Real.log 3 - 2*Real.log 2 := by
  rw [Real.log_div (by norm_num) (by norm_num),
    show ((4:ℝ)) = 2 ^ (2:ℕ) by norm_num, Real.log_pow]
  push_cast
  ring

theorem log_frac14 : Real.log ((1:ℝ)/4) = -(2*Real.log 2) := by
  rw [Real.log_div (by norm_num) (by norm_num), Real.log_one,
    show ((4:ℝ)) = 2 ^ (2:ℕ) by norm_num, Real.log_pow]
  push_cast
  ring

theorem log_frac35 : Real.log ((3:ℝ)/5) = Real.log 3 - Real.log 5 :=
  Real.log_div (by norm_num) (by norm_num)

theorem log_frac25 : Real.log ((2:ℝ)/5) = Real.log 2 - Real.log 5 :=
  Real.log_div (by norm_num) (by norm_num)

theorem log_frac13 : Real.log ((1:ℝ)/3) = -Real.log 3 := by
  rw [Real.log_div (by norm_num) (by norm_num), Real.log_one]
  ring

theorem log_frac23 : Real.log ((2:ℝ)/3) = Real.log 2 - Real.log 3 :=
  Real.log_div (by norm_num) (by norm_num)

theorem log_frac46 : Real.log ((4:ℝ)/6) = Real.log 2 - Real.log 3 := by
  rw [show ((4:ℝ)/6) = 2/3 by norm_num]
  exact log_frac23

theorem log_frac26 : Real.log ((2:ℝ)/6) = -Real.log 3 := by
  rw [show ((2:ℝ)/6) = 1/3 by norm_num]
  exact log_frac13

theorem entropy_feature_C_F :
    get_entropy_feature dtC rowsC "F" =
      (2/3)*Real.log 2 - (2/3)*Real.log 3 + (5/9)*Real.log 5 := by
  simp only [get_entropy_feature]
  rw [show (dtC).target = "T" from rfl]
  rw [show rowsC.map (fun r => r "T") =
    ["Y", "Y", "Y", "N", "Y", "N", "N", "Y", "Y"] from rfl]
  rw [show rowsC.map (fun r => r "F") =
    ["a", "a", "a", "a", "b", "b", "b", "b", "b"] from rfl]
  rw [show uniqueList ["Y", "Y", "Y", "N", "Y", "N", "N", "Y", "Y"] = ["Y", "N"] from rfl]
  rw [show uniqueList ["a", "a", "a", "a", "b", "b", "b", "b", "b"] = ["a", "b"] from rfl]
  simp only [List.foldl_cons, List.foldl_nil]
  rw [show ((rowsC.filter (fun r => r "F" == "a")).filter
      (fun r => r "T" == "Y")).length = 3 from rfl]
  rw [show ((rowsC.filter (fun r => r "F" == "a")).filter
      (fun r => r "T" == "N")).length = 1 from rfl]
  rw [show ((rowsC.filter (fun r => r "F" == "b")).filter
      (fun r => r "T" == "Y")).length = 3 from rfl]
  rw [show ((rowsC.filter (fun r => r "F" == "b")).filter
      (fun r => r "T" == "N")).length = 2 from rfl]
  rw [show (rowsC.filter (fun r => r "F" == "a")).length = 4 from rfl]
  rw [show (rowsC.filter (fun r => r "F" == "b")).length = 5 from rfl]
  rw [show (rowsC : List Row).length = 9 from rfl]
  push_cast
  have hi1 : (0:ℝ) ≤ 0 + -(3/4) * Real.log (3/4) + -(1/4) * Real.log (1/4) := by
    have h1 := negMulLog_nonneg (show (0:ℝ) ≤ 3/4 by norm_num) (by norm_num)
    have h2 := negMulLog_nonneg (show (0:ℝ) ≤ 1/4 by norm_num) (by norm_num)
    linarith
  have hi2 : (0:ℝ) ≤ 0 + -(3/5) * Real.log (3/5) + -(2/5) * Real.log (2/5) := by
    have h1 := negMulLog_nonneg (show (0:ℝ) ≤ 3/5 by norm_num) (by norm_num)
    have h2 := negMulLog_nonneg (show (0:ℝ) ≤ 2/5 by norm_num) (by norm_num)
    linarith
  rw [abs_of_nonpos (by linarith :
    (0 + -(4/9) * (0 + -(3/4) * Real.log (3/4) + -(1/4) * Real.log (1/4)) +
      -(5/9) * (0 + -(3/5) * Real.log (3/5) + -(2/5) * Real.log (2/5)) : ℝ) ≤ 0)]
  rw [log_frac34, log_frac14, log_frac35, log_frac25]
  ring

theorem entropy_feature_C_H :
    get_entropy_feature dtC rowsC "H" = Real.log 3 - (2/3)*Real.log 2 := by
  simp only [get_entropy_feature]
  rw [show (dtC).target = "T" from rfl]
  rw [show rowsC.map (fun r => r "T") =
    ["Y", "Y", "Y", "N", "Y", "N", "N", "Y", "Y"] from rfl]
  rw [show rowsC.map (fun r => r "H") =
    ["x1", "x1", "x1", "x2", "x1", "x1", "x1", "x2", "x2"] from rfl]
  rw [show uniqueList ["Y", "Y", "Y", "N", "Y", "N", "N", "Y", "Y"] = ["Y", "N"] from rfl]
  rw [show uniqueList ["x1", "x1", "x1", "x2", "x1", "x1", "x1", "x2", "x2"] =
    ["x1", "x2"] from rfl]
  simp only [List.foldl_cons, List.foldl_nil]
  rw [show ((rowsC.filter (fun r => r "H" == "x1")).filter
      (fun r => r "T" == "Y")).length = 4 from rfl]
  rw [show ((rowsC.filter (fun r => r "H" == "x1")).filter
      (fun r => r "T" == "N")).length = 2 from rfl]
  rw [show ((rowsC.filter (fun r => r "H" == "x2")).filter
      (fun r => r "T" == "Y")).length = 2 from rfl]
  rw [show ((rowsC.filter (fun r => r "H" == "x2")).filter
      (fun r => r "T" == "N")).length = 1 from rfl]
  rw [show (rowsC.filter (fun r => r "H" == "x1")).length = 6 from rfl]
  rw [show (rowsC.filter (fun r => r "H" == "x2")).length = 3 from rfl]
  rw [show (rowsC : List Row).length = 9 from rfl]
  push_cast
  have hi1 : (0:ℝ) ≤ 0 + -(4/6) * Real.log (4/6) + -(2/6) * Real.log (2/6) := by
    have h1 := negMulLog_nonneg (show (0:ℝ) ≤ 4/6 by norm_num) (by norm_num)
    have h2 := negMulLog_nonneg (show (0:ℝ) ≤ 2/6 by norm_num) (by norm_num)
    linarith
  have hi2 : (0:ℝ) ≤ 0 + -(2/3) * Real.log (2/3) + -(1/3) * Real.log (1/3) := by
    have h1 := negMulLog_nonneg (show (0:ℝ) ≤ 2/3 by norm_num) (by norm_num)
    have h2 := negMulLog_nonneg (show (0:ℝ) ≤ 1/3 by norm_num) (by norm_num)
    linarith
  rw [abs_of_nonpos (by linarith :
    (0 + -(6/9) * (0 + -(4/6) * Real.log (4/6) + -(2/6) * Real.log (2/6)) +
      -(3/9) * (0 + -(2/3) * Real.log (2/3) + -(1/3) * Real.log (1/3)) : ℝ) ≤ 0)]
  rw [log_frac46, log_frac26, log_frac23, log_frac13]
  ring

theorem entropy_feature_Ca_F :
    get_entropy_feature dtC subCa "F" = 2*Real.log 2 - (3/4)*Real.log 3 := by
  simp only [get_entropy_feature]
  rw [show (dtC).target = "T" from rfl]
  rw [show subCa.map (fun r => r "T") = ["Y", "Y", "Y", "N"] from rfl]
  rw [show subCa.map (fun r => r "F") = ["a", "a", "a", "a"] from rfl]
  rw [show uniqueList ["Y", "Y", "Y", "N"] = ["Y", "N"] from rfl]
  rw [show uniqueList ["a", "a", "a", "a"] = ["a"] from rfl]
  simp only [List.foldl_cons, List.foldl_nil]
  rw [show ((subCa.filter (fun r => r "F" == "a")).filter
      (fun r => r "T" == "Y")).length = 3 from rfl]
  rw [show ((subCa.filter (fun r => r "F" == "a")).filter
      (fun r => r "T" == "N")).length = 1 from rfl]
  rw [show (subCa.filter (fun r => r "F" == "a")).length = 4 from rfl]
  rw [show (subCa : List Row).length = 4 from rfl]
  push_cast
  rw [show ((4:ℝ)/4) = 1 by norm_num]
  have hi1 : (0:ℝ) ≤ 0 + -(3/4) * Real.log (3/4) + -(1/4) * Real.log (1/4) := by
    have h1 := negMulLog_nonneg (show (0:ℝ) ≤ 3/4 by norm_num) (by norm_num)
    have h2 := negMulLog_nonneg (show (0:ℝ) ≤ 1/4 by norm_num) (by norm_num)
    linarith
  rw [abs_of_nonpos (by linarith :
    (0 + -1 * (0 + -(3/4) * Real.log (3/4) + -(1/4) * Real.log (1/4)) : ℝ) ≤ 0)]
  rw [log_frac34, log_frac14]
  ring

theorem entropy_feature_Ca_H : get_entropy_feature dtC subCa "H" = 0 := by
  simp only [get_entropy_feature]
  rw [show (dtC).target = "T" from rfl]
  rw [show subCa.map (fun r => r "T") = ["Y", "Y", "Y", "N"] from rfl]
  rw [show subCa.map (fun r => r "H") = ["x1", "x1", "x1", "x2"] from rfl]
  rw [show uniqueList ["Y", "Y", "Y", "N"] = ["Y", "N"] from rfl]
  rw [show uniqueList ["x1", "x1", "x1", "x2"] = ["x1", "x2"] from rfl]
  simp only [List.foldl_cons, List.foldl_nil]
  rw [show ((subCa.filter (fun r => r "H" == "x1")).filter
      (fun r => r "T" == "Y")).length = 3 from rfl]
  rw [show ((subCa.filter (fun r => r "H" == "x1")).filter
      (fun r => r "T" == "N")).length = 0 from rfl]
  rw [show ((subCa.filter (fun r => r "H" == "x2")).filter
      (fun r => r "T" == "Y")).length = 0 from rfl]
  rw [show ((subCa.filter (fun r => r "H" == "x2")).filter
      (fun r => r "T" == "N")).length = 1 from rfl]
  rw [show (subCa.filter (fun r => r "H" == "x1")).length = 3 from rfl]
  rw [show (subCa.filter (fun r => r "H" == "x2")).length = 1 from rfl]
  rw [show (subCa : List Row).length = 4 from rfl]
  push_cast
  norm_num [Real.log_zero, Real.log_one]

theorem entropy_feature_Cb_F :
    get_entropy_feature dtC subCb "F" =
      Real.log 5 - (3/5)*Real.log 3 - (2/5)*Real.log 2 := by
  simp only [get_entropy_feature]
  rw [show (dtC).target = "T" from rfl]
  rw [show subCb.map (fun r => r "T") = ["Y", "N", "N", "Y", "Y"] from rfl]
  rw [show subCb.map (fun r => r "F") = ["b", "b", "b", "b", "b"] from rfl]
  rw [show uniqueList ["Y", "N", "N", "Y", "Y"] = ["Y", "N"] from rfl]
  rw [show uniqueList ["b", "b", "b", "b", "b"] = ["b"] from rfl]
  simp only [List.foldl_cons, List.foldl_nil]
  rw [show ((subCb.filter (fun r => r "F" == "b")).filter
      (fun r => r "T" == "Y")).length = 3 from rfl]
  rw [show ((subCb.filter (fun r => r "F" == "b")).filter
      (fun r => r "T" == "N")).length = 2 from rfl]
  rw [show (subCb.filter (fun r => r "F" == "b")).length = 5 from rfl]
  rw [show (subCb : List Row).length = 5 from rfl]
  push_cast
  rw [show ((5:ℝ)/5) = 1 by norm_num]
  have hi1 : (0:ℝ) ≤ 0 + -(3/5) * Real.log (3/5) + -(2/5) * Real.log (2/5) := by
    have h1 := negMulLog_nonneg (show (0:ℝ) ≤ 3/5 by norm_num) (by norm_num)
    have h2 := negMulLog_nonneg (show (0:ℝ) ≤ 2/5 by norm_num) (by norm_num)
    linarith
  rw [abs_of_nonpos (by linarith :
    (0 + -1 * (0 + -(3/5) * Real.log (3/5) + -(2/5) * Real.log (2/5)) : ℝ) ≤ 0)]
  rw [log_frac35, log_frac25]
  ring

theorem entropy_feature_Cb_H :
    get_entropy_feature dtC subCb "H" = (3/5)*Real.log 3 - (2/5)*Real.log 2 := by
  simp only [get_entropy_feature]
  rw [show (dtC).target = "T" from rfl]
  rw [show subCb.map (fun r => r "T") = ["Y", "N", "N", "Y", "Y"] from rfl]
  rw [show subCb.map (fun r => r "H") = ["x1", "x1", "x1", "x2", "x2"] from rfl]
  rw [show uniqueList ["Y", "N", "N", "Y", "Y"] = ["Y", "N"] from rfl]
  rw [show uniqueList ["x1", "x1", "x1", "x2", "x2"] = ["x1", "x2"] from rfl]
  simp only [List.foldl_cons, List.foldl_nil]
  rw [show ((subCb.filter (fun r => r "H" == "x1")).filter
      (fun r => r "T" == "Y")).length = 1 from rfl]
  rw [show ((subCb.filter (fun r => r "H" == "x1")).filter
      (fun r => r "T" == "N")).length = 2 from rfl]
  rw [show ((subCb.filter (fun r => r "H" == "x2")).filter
      (fun r => r "T" == "Y")).length = 2 from rfl]
  rw [show ((subCb.filter (fun r => r "H" == "x2")).filter
      (fun r => r "T" == "N")).length = 0 from rfl]
  rw [show (subCb.filter (fun r => r "H" == "x1")).length = 3 from rfl]
  rw [show (subCb.filter (fun r => r "H" == "x2")).length = 2 from rfl]
  rw [show (subCb : List Row).length = 5 from rfl]
  push_cast
  rw [show ((2:ℝ)/2) = 1 by norm_num, show ((0:ℝ)/2) = 0 by norm_num,
    Real.log_one, Real.log_zero]
  have hi1 : (0:ℝ) ≤ 0 + -(1/3) * Real.log (1/3) + -(2/3) * Real.log (2/3) := by
    have h1 := negMulLog_nonneg (show (0:ℝ) ≤ 1/3 by norm_num) (by norm_num)
    have h2 := negMulLog_nonneg (show (0:ℝ) ≤ 2/3 by norm_num) (by norm_num)
    linarith
  rw [abs_of_nonpos (by linarith :
    (0 + -(3/5) * (0 + -(1/3) * Real.log (1/3) + -(2/3) * Real.log (2/3)) +
      -(2/5) * (0 + -1 * 0 + -0 * 0) : ℝ) ≤ 0)]
  rw [log_frac13, log_frac23]
  ring

theorem entropy_feature_Cbx_F :
    get_entropy_feature dtC subCbx1 "F" = Real.log 3 - (2/3)*Real.log 2 := by
  simp only [get_entropy_feature]
  rw [show (dtC).target = "T" from rfl]
  rw [show subCbx1.map (fun r => r "T") = ["Y", "N", "N"] from rfl]
  rw [show subCbx1.map (fun r => r "F") = ["b", "b", "b"] from rfl]
  rw [show uniqueList ["Y", "N", "N"] = ["Y", "N"] from rfl]
  rw [show uniqueList ["b", "b", "b"] = ["b"] from rfl]
  simp only [List.foldl_cons, List.foldl_nil]
  rw [show ((subCbx1.filter (fun r => r "F" == "b")).filter
      (fun r => r "T" == "Y")).length = 1 from rfl]
  rw [show ((subCbx1.filter (fun r => r "F" == "b")).filter
      (fun r => r "T" == "N")).length = 2 from rfl]
  rw [show (subCbx1.filter (fun r => r "F" == "b")).length = 3 from rfl]
  rw [show (subCbx1 : List Row).length = 3 from rfl]
  push_cast
  rw [show ((3:ℝ)/3) = 1 by norm_num]
  have hi1 : (0:ℝ) ≤ 0 + -(1/3) * Real.log (1/3) + -(2/3) * Real.log (2/3) := by
    have h1 := negMulLog_nonneg (show (0:ℝ) ≤ 1/3 by norm_num) (by norm_num)
    have h2 := negMulLog_nonneg (show (0:ℝ) ≤ 2/3 by norm_num) (by norm_num)
    linarith
  rw [abs_of_nonpos (by linarith :
    (0 + -1 * (0 + -(1/3) * Real.log (1/3) + -(2/3) * Real.log (2/3)) : ℝ) ≤ 0)]
  rw [log_frac13, log_frac23]
  ring

theorem entropy_feature_Cbx_H :
    get_entropy_feature dtC subCbx1 "H" = Real.log 3 - (2/3)*Real.log 2 := by
  simp only [get_entropy_feature]
  rw [show (dtC).target = "T" from rfl]
  rw [show subCbx1.map (fun r => r "T") = ["Y", "N", "N"] from rfl]
  rw [show subCbx1.map (fun r => r "H") = ["x1", "x1", "x1"] from rfl]
  rw [show uniqueList ["Y", "N", "N"] = ["Y", "N"] from rfl]
  rw [show uniqueList ["x1", "x1", "x1"] = ["x1"] from rfl]
  simp only [List.foldl_cons, List.foldl_nil]
  rw [show ((subCbx1.filter (fun r => r "H" == "x1")).filter
      (fun r => r "T" == "Y")).length = 1 from rfl]
  rw [show ((subCbx1.filter (fun r => r "H" == "x1")).filter
      (fun r => r "T" == "N")).length = 2 from rfl]
  rw [show (subCbx1.filter (fun r => r "H" == "x1")).length = 3 from rfl]
  rw [show (subCbx1 : List Row).length = 3 from rfl]
  push_cast
  rw [show ((3:ℝ)/3) = 1 by norm_num]
  have hi1 : (0:ℝ) ≤ 0 + -(1/3) * Real.log (1/3) + -(2/3) * Real.log (2/3) := by
    have h1 := negMulLog_nonneg (show (0:ℝ) ≤ 1/3 by norm_num) (by norm_num)
    have h2 := negMulLog_nonneg (show (0:ℝ) ≤ 2/3 by norm_num) (by norm_num)
    linarith
  rw [abs_of_nonpos (by linarith :
    (0 + -1 * (0 + -(1/3) * Real.log (1/3) + -(2/3) * Real.log (2/3)) : ℝ) ≤ 0)]
  rw [log_frac13, log_frac23]
  ring

theorem sel_Croot : get_lowest_entropy_feature dtC rowsC = some "F" := by
  simp only [get_lowest_entropy_feature]
  rw [show dtC.features = ["F", "H"] from rfl]
  simp only [List.map_cons, List.map_nil]
  rw [entropy_feature_C_F, entropy_feature_C_H]
  have hne : ¬(get_entropy_df dtC rowsC - (Real.log 3 - (2/3)*Real.log 2) =
      get_entropy_df dtC rowsC -
        ((2/3)*Real.log 2 - (2/3)*Real.log 3 + (5/9)*Real.log 5)) := by
    intro h
    have := log_ineq_root
    linarith
  simp only [uniqueList, removeVal]
  rw [if_neg hne]
  simp only [List.length_cons, List.length_nil]
  rw [if_neg (by norm_num : ¬(0 + 1 + 1 = 1))]
  simp only [argmaxIdx, listMax]
  rw [if_neg (not_lt.mpr (by
    have := log_ineq_root
    linarith :
    get_entropy_df dtC rowsC - (Real.log 3 - (2/3)*Real.log 2) ≤
      get_entropy_df dtC rowsC -
        ((2/3)*Real.log 2 - (2/3)*Real.log 3 + (5/9)*Real.log 5)))]
  simp only [Option.bind]
  rw [show (dtC.cols.filter (fun c => c != dtC.target)) = ["F", "H"] from rfl]
  rfl

theorem sel_Ca : get_lowest_entropy_feature dtC subCa = some "H" := by
  simp only [get_lowest_entropy_feature]
  rw [show dtC.features = ["F", "H"] from rfl]
  simp only [List.map_cons, List.map_nil]
  rw [entropy_feature_Ca_F, entropy_feature_Ca_H]
  have hne : ¬(get_entropy_df dtC subCa - 0 =
      get_entropy_df dtC subCa - (2*Real.log 2 - (3/4)*Real.log 3)) := by
    intro h
    have := log_ineq_a
    linarith
  simp only [uniqueList, removeVal]
  rw [if_neg hne]
  simp only [List.length_cons, List.length_nil]
  rw [if_neg (by norm_num : ¬(0 + 1 + 1 = 1))]
  simp only [argmaxIdx, listMax]
  rw [if_pos (by
    have := log_ineq_a
    linarith :
    get_entropy_df dtC subCa - (2*Real.log 2 - (3/4)*Real.log 3) <
      get_entropy_df dtC subCa - 0)]
  simp only [argmaxIdx, Option.map, Option.bind]
  rw [show (dtC.cols.filter (fun c => c != dtC.target)) = ["F", "H"] from rfl]
  rfl

theorem sel_Cb : get_lowest_entropy_feature dtC subCb = some "H" := by
  simp only [get_lowest_entropy_feature]
  rw [show dtC.features = ["F", "H"] from rfl]
  simp only [List.map_cons, List.map_nil]
  rw [entropy_feature_Cb_F, entropy_feature_Cb_H]
  have hne : ¬(get_entropy_df dtC subCb - ((3/5)*Real.log 3 - (2/5)*Real.log 2) =
      get_entropy_df dtC subCb -
        (Real.log 5 - (3/5)*Real.log 3 - (2/5)*Real.log 2)) := by
    intro h
    have := log_ineq_b
    linarith
  simp only [uniqueList, removeVal]
  rw [if_neg hne]
  simp only [List.length_cons, List.length_nil]
  rw [if_neg (by norm_num : ¬(0 + 1 + 1 = 1))]
  simp only [argmaxIdx, listMax]
  rw [if_pos (by
    have := log_ineq_b
    linarith :
    get_entropy_df dtC subCb - (Real.log 5 - (3/5)*Real.log 3 - (2/5)*Real.log 2) <
      get_entropy_df dtC subCb - ((3/5)*Real.log 3 - (2/5)*Real.log 2))]
  simp only [argmaxIdx, Option.map, Option.bind]
  rw [show (dtC.cols.filter (fun c => c != dtC.target)) = ["F", "H"] from rfl]
  rfl

theorem sel_Cbx : get_lowest_entropy_feature dtC subCbx1 = none := by
  simp only [get_lowest_entropy_feature]
  rw [show dtC.features = ["F", "H"] from rfl]
  simp only [List.map_cons, List.map_nil]
  rw [entropy_feature_Cbx_F, entropy_feature_Cbx_H]
  simp [uniqueList, removeVal]

theorem build_tree_sel_some (dt : Dtree) (rows : List Row) (depth : Nat) (node : String)
    (h : get_lowest_entropy_feature dt rows = some node) (hne : node ≠ "") :
    build_tree dt rows none depth =
      some (ID3Tree.node node
        (build_children dt rows node (uniqueList (rows.map (fun r => r node))) depth)) := by
  rw [build_tree.eq_1, h]
  simp [hne]

theorem build_tree_claim_sel_some (dt : Dtree) (rows : List Row) (depth : Nat)
    (node : String)
    (h : get_lowest_entropy_feature dt rows = some node) (hne : node ≠ "") :
    build_tree_claim dt rows none depth =
      some (ID3Tree.node node
        (build_children_claim dt rows node (uniqueList (rows.map (fun r => r node)))
          depth)) := by
  rw [build_tree_claim.eq_1, h]
  simp [hne]

theorem build_subCa : build_tree dtC subCa none 1 =
    some (ID3Tree.node "H"
      [("x1", some (ID3Tree.leaf "Y")), ("x2", some (ID3Tree.leaf "N"))]) := by
  rw [build_tree_sel_some dtC subCa 1 "H" sel_Ca (by decide)]
  rw [show uniqueList (subCa.map (fun r => r "H")) = ["x1", "x2"] from rfl]
  rw [build_children_pure_step dtC subCa "H" "x1" ["x2"] 1 rfl]
  rw [build_children_pure_step dtC subCa "H" "x2" [] 1 rfl]
  rw [build_children_nil]
  rw [show (uniqueList ((subCa.filter (fun r => r "H" == "x1")).map
    (fun r => r dtC.target))).headD "" = "Y" from rfl]
  rw [show (uniqueList ((subCa.filter (fun r => r "H" == "x2")).map
    (fun r => r dtC.target))).headD "" = "N" from rfl]

theorem build_subCb : build_tree dtC subCb none 2 = some (ID3Tree.node "H" []) := by
  rw [build_tree_sel_some dtC subCb 2 "H" sel_Cb (by decide)]
  rw [show uniqueList (subCb.map (fun r => r "H")) = ["x1", "x2"] from rfl]
  rw [build_children_truncate_step dtC subCb "H" "x1" ["x2"] 2 (by decide)
    (by decide : dtC.max_depth ≤ 2)]

theorem build_subCa_claim : build_tree_claim dtC subCa none 1 =
    some (ID3Tree.node "H"
      [("x1", some (ID3Tree.leaf "Y")), ("x2", some (ID3Tree.leaf "N"))]) := by
  rw [build_tree_claim_sel_some dtC subCa 1 "H" sel_Ca (by decide)]
  rw [show uniqueList (subCa.map (fun r => r "H")) = ["x1", "x2"] from rfl]
  rw [build_children_claim_pure_step dtC subCa "H" "x1" ["x2"] 1 rfl]
  rw [build_children_claim_pure_step dtC subCa "H" "x2" [] 1 rfl]
  rw [build_children_claim_nil]
  rw [show (uniqueList ((subCa.filter (fun r => r "H" == "x1")).map
    (fun r => r dtC.target))).headD "" = "Y" from rfl]
  rw [show (uniqueList ((subCa.filter (fun r => r "H" == "x2")).map
    (fun r => r dtC.target))).headD "" = "N" from rfl]

theorem build_subCb_claim : build_tree_claim dtC subCb none 1 =
    some (ID3Tree.node "H" [("x1", none), ("x2", some (ID3Tree.leaf "Y"))]) := by
  rw [build_tree_claim_sel_some dtC subCb 1 "H" sel_Cb (by decide)]
  rw [show uniqueList (subCb.map (fun r => r "H")) = ["x1", "x2"] from rfl]
  rw [build_children_claim_impure_step dtC subCb "H" "x1" ["x2"] 1 (by decide)
    (by decide : 1 < dtC.max_depth)]
  rw [show subCb.filter (fun r => r "H" == "x1") = subCbx1 from rfl]
  rw [build_tree_claim_sel_none dtC subCbx1 2 sel_Cbx]
  rw [build_children_claim_pure_step dtC subCb "H" "x2" [] 1 rfl]
  rw [build_children_claim_nil]
  rw [show (uniqueList ((subCb.filter (fun r => r "H" == "x2")).map
    (fun r => r dtC.target))).headD "" = "Y" from rfl]

theorem build_C_actual : build_tree dtC rowsC none 0 =
    some (ID3Tree.node "F"
      [("a", some (ID3Tree.node "H"
        [("x1", some (ID3Tree.leaf "Y")), ("x2", some (ID3Tree.leaf "N"))])),
       ("b", some (ID3Tree.node "H" []))]) := by
  rw [build_tree_sel_some dtC rowsC 0 "F" sel_Croot (by decide)]
  rw [show uniqueList (rowsC.map (fun r => r "F")) = ["a", "b"] from rfl]
  rw [build_children_impure_step dtC rowsC "F" "a" ["b"] 0 (by decide)
    (by decide : 0 < dtC.max_depth)]
  rw [show rowsC.filter (fun r => r "F" == "a") = subCa from rfl]
  rw [build_subCa]
  rw [build_children_impure_step dtC rowsC "F" "b" [] 1 (by decide)
    (by decide : 1 < dtC.max_depth)]
  rw [show rowsC.filter (fun r => r "F" == "b") = subCb from rfl]
  rw [build_subCb]
  rw [build_children_nil]

theorem build_C_claim : build_tree_claim dtC rowsC none 0 =
    some (ID3Tree.node "F"
      [("a", some (ID3Tree.node "H"
        [("x1", some (ID3Tree.leaf "Y")), ("x2", some (ID3Tree.leaf "N"))])),
       ("b", some (ID3Tree.node "H"
        [("x1", none), ("x2", some (ID3Tree.leaf "Y"))]))]) := by
  rw [build_tree_claim_sel_some dtC rowsC 0 "F" sel_Croot (by decide)]
  rw [show uniqueList (rowsC.map (fun r => r "F")) = ["a", "b"] from rfl]
  rw [build_children_claim_impure_step dtC rowsC "F" "a" ["b"] 0 (by decide)
    (by decide : 0 < dtC.max_depth)]
  rw [show rowsC.filter (fun r => r "F" == "a") = subCa from rfl]
  rw [build_subCa_claim]
  rw [build_children_claim_impure_step dtC rowsC "F" "b" [] 0 (by decide)
    (by decide : 0 < dtC.max_depth)]
  rw [show rowsC.filter (fun r => r "F" == "b") = subCb from rfl]
  rw [build_subCb_claim]
  rw [build_children_claim_nil]

/-! General values of `get_entropy_df`. -/

/-- A label column with exactly one distinct value has entropy `0`. -/
theorem entropy_df_pure (dt : Dtree) (rows : List Row)
    (h : (uniqueList (rows.map (fun r => r dt.target))).length = 1) :
    get_entropy_df dt rows = 0 := by
  obtain ⟨v, hv⟩ := List.length_eq_one.mp h
  have hne : rows.map (fun r => r dt.target) ≠ [] := by
    intro hnil
    rw [hnil] at hv
    simp [uniqueList] at hv
  have hcount : (rows.map (fun r => r dt.target)).count v =
      (rows.map (fun r => r dt.target)).length := by
    rw [List.count_eq_length]
    intro b hb
    have hmem : b ∈ uniqueList (rows.map (fun r => r dt.target)) := mem_uniqueList.mpr hb
    rw [hv] at hmem
    simpa using (List.mem_singleton.mp hmem).symm
  have hlen : (((rows.map (fun r => r dt.target)).length : ℕ) : ℝ) ≠ 0 := by
    have : (rows.map (fun r => r dt.target)).length ≠ 0 :=
      fun h0 => hne (List.length_eq_zero.mp h0)
    exact_mod_cast this
  simp only [get_entropy_df]
  rw [hv]
  simp only [List.foldl_cons, List.foldl_nil]
  rw [hcount, div_self hlen, Real.logb_one]
  ring

/-- A label column whose distinct values occur in equal counts `m` has
entropy `log2 k`, `k` the number of distinct values. -/
theorem entropy_df_uniform (dt : Dtree) (rows : List Row) (m : Nat) (hm : 0 < m)
    (hall : ∀ v ∈ uniqueList (rows.map (fun r => r dt.target)),
      (rows.map (fun r => r dt.target)).count v = m) :
    get_entropy_df dt rows =
      Real.logb 2 ((uniqueList (rows.map (fun r => r dt.target))).length) := by
  rcases Nat.eq_zero_or_pos (uniqueList (rows.map (fun r => r dt.target))).length
    with hk0 | hkpos
  · have hu : uniqueList (rows.map (fun r => r dt.target)) = [] :=
      List.length_eq_zero.mp hk0
    simp only [get_entropy_df]
    rw [hu]
    simp [Real.logb_zero]
  · have hn : (rows.map (fun r => r dt.target)).length =
        (uniqueList (rows.map (fun r => r dt.target))).length * m := by
      have h1 := length_eq_sum_count (rows.map (fun r => r dt.target))
      rw [sum_map_const hall, smul_eq_mul] at h1
      exact h1.symm
    have hkne : (((uniqueList (rows.map (fun r => r dt.target))).length : ℕ) : ℝ) ≠ 0 := by
      exact_mod_cast Nat.pos_iff_ne_zero.mp hkpos
    have hmne : ((m : ℕ) : ℝ) ≠ 0 := by
      exact_mod_cast Nat.pos_iff_ne_zero.mp hm
    have hfrac : ((m : ℕ) : ℝ) /
        ((((uniqueList (rows.map (fun r => r dt.target))).length * m : ℕ)) : ℝ) =
        ((((uniqueList (rows.map (fun r => r dt.target))).length : ℕ)) : ℝ)⁻¹ := by
      push_cast
      rw [mul_comm, ← div_div, div_self hmne, one_div]
    have hconst : ∀ v ∈ uniqueList (rows.map (fun r => r dt.target)),
        (-(((rows.map (fun r => r dt.target)).count v : ℝ) /
          ((rows.map (fun r => r dt.target)).length : ℝ)) *
          Real.logb 2 (((rows.map (fun r => r dt.target)).count v : ℝ) /
            ((rows.map (fun r => r dt.target)).length : ℝ))) =
        ((((uniqueList (rows.map (fun r => r dt.target))).length : ℕ)) : ℝ)⁻¹ *
          Real.logb 2 ((uniqueList (rows.map (fun r => r dt.target))).length) := by
      intro v hv
      rw [hall v hv, hn, hfrac, Real.logb_inv]
      ring
    simp only [get_entropy_df]
    rw [foldl_add_eq_sum, zero_add, sum_map_const hconst, nsmul_eq_mul, ← mul_assoc,
      mul_inv_cancel₀ hkne, one_mul]

/-! General behaviour of `get_lowest_entropy_feature`. -/

/-- When the gains are not all identical, the function returns the entry
of the data frame's non-target column list indexed by the first position
attaining the maximal gain over the feature list. -/
theorem get_lowest_some_spec (dt : Dtree) (rows : List Row)
    (hne : dt.features ≠ [])
    (hdiff : (uniqueList (dt.features.map
      (fun f => get_entropy_df dt rows - get_entropy_feature dt rows f))).length ≠ 1) :
    ∃ i, ∃ hi : i < (dt.features.map
      (fun f => get_entropy_df dt rows - get_entropy_feature dt rows f)).length,
      get_lowest_entropy_feature dt rows =
        (dt.cols.filter (fun c => c != dt.target)).get? i ∧
      (∀ j, ∀ hj : j < (dt.features.map
          (fun f => get_entropy_df dt rows - get_entropy_feature dt rows f)).length,
        (dt.features.map
          (fun f => get_entropy_df dt rows - get_entropy_feature dt rows f)).get ⟨j, hj⟩ ≤
        (dt.features.map
          (fun f => get_entropy_df dt rows - get_entropy_feature dt rows f)).get ⟨i, hi⟩) ∧
      (∀ j, ∀ hj : j < i,
        (dt.features.map
          (fun f => get_entropy_df dt rows - get_entropy_feature dt rows f)).get
            ⟨j, Nat.lt_trans hj hi⟩ <
        (dt.features.map
          (fun f => get_entropy_df dt rows - get_entropy_feature dt rows f)).get
            ⟨i, hi⟩) := by
  have hEne : dt.features.map
      (fun f => get_entropy_df dt rows - get_entropy_feature dt rows f) ≠ [] := by
    intro h0
    exact hne (List.map_eq_nil_iff.mp h0)
  obtain ⟨i, hi, heq, hmax, hfirst⟩ := argmaxIdx_spec _ hEne
  refine ⟨i, hi, ?_, hmax, hfirst⟩
  simp only [get_lowest_entropy_feature]
  rw [if_neg hdiff, heq]
  rfl

/-- The selector returns `None` exactly when all gains are identical
(feature list non-empty and not longer than the non-target columns). -/
theorem get_lowest_none_iff (dt : Dtree) (rows : List Row)
    (h1 : dt.features ≠ [])
    (h2 : dt.features.length ≤ (dt.cols.filter (fun c => c != dt.target)).length) :
    (get_lowest_entropy_feature dt rows = none ↔
      ∀ f ∈ dt.features, ∀ g ∈ dt.features,
        get_entropy_df dt rows - get_entropy_feature dt rows f =
          get_entropy_df dt rows - get_entropy_feature dt rows g) := by
  have hEne : dt.features.map
      (fun f => get_entropy_df dt rows - get_entropy_feature dt rows f) ≠ [] := by
    intro h0
    exact h1 (List.map_eq_nil_iff.mp h0)
  constructor
  · intro hnone f hf g hg
    by_cases hlen : (uniqueList (dt.features.map
        (fun f => get_entropy_df dt rows - get_entropy_feature dt rows f))).length = 1
    · exact (uniqueList_length_eq_one hEne).mp hlen _
        (List.mem_map_of_mem _ hf) _ (List.mem_map_of_mem _ hg)
    · exfalso
      obtain ⟨i, hi, heq, _, _⟩ := get_lowest_some_spec dt rows h1 hlen
      rw [hnone] at heq
      have hilt : i < (dt.cols.filter (fun c => c != dt.target)).length := by
        rw [List.length_map] at hi
        exact lt_of_lt_of_le hi h2
      rw [List.get?_eq_get hilt] at heq
      exact Option.noConfusion heq
  · intro hall
    have hone : (uniqueList (dt.features.map
        (fun f => get_entropy_df dt rows - get_entropy_feature dt rows f))).length = 1 := by
      apply (uniqueList_length_eq_one hEne).mpr
      intro a ha b hb
      obtain ⟨f, hf, rfl⟩ := List.mem_map.mp ha
      obtain ⟨g, hg, rfl⟩ := List.mem_map.mp hb
      exact hall f hf g hg
    simp only [get_lowest_entropy_feature]
    rw [if_pos hone]

/-! Claim theorems. -/

/-- C1, counterexample.  On scenario A's table (four rows, a single
feature `F` perfectly correlated with the target) `build_tree` with
`maxDepth = 1` does *not* return the internal node `{F: {a: Yes, b: No}}`
the claim promises: with a single feature the gain list is a singleton,
so `get_lowest_entropy_feature` returns `None` and the build is
abandoned. -/
theorem claim1_counterexample :
    build_tree (dtA 1) rowsA none 0 ≠
      some (ID3Tree.node "F"
        [("a", some (ID3Tree.leaf "Yes")), ("b", some (ID3Tree.leaf "No"))]) := by
  rw [build_A 1]
  simp

/-- C1, amended.  On scenario A's table `entropyOfLabels` is exactly
`1` bit and `entropyOfFeature(F)` is exactly `0` (in the real-number
idealisation), but `build_tree` returns `None` for every depth ceiling:
the lone feature makes the gain set a singleton, so selection signals
"no informative feature" and the branch is abandoned. -/
theorem claim1_amended :
    get_entropy_df (dtA 1) rowsA = 1 ∧ get_entropy_feature (dtA 1) rowsA "F" = 0 ∧
      ∀ md : Nat, build_tree (dtA md) rowsA none 0 = none :=
  ⟨entropy_df_A 1, entropy_feature_A 1, build_A⟩

/-- C2, counterexample.  On `rowsB` with feature list `[B, A]` (reversed
relative to the column order `[A, B]`), the selector returns `A`, even
though `A`'s gain is strictly below `B`'s: the argmax position is
computed over the feature list but then looked up in
`df.keys().drop(target)`. -/
theorem claim2_counterexample :
    get_lowest_entropy_feature dtB rowsB = some "A" ∧
      "A" ∈ dtB.features ∧ "B" ∈ dtB.features ∧
      get_entropy_df dtB rowsB - get_entropy_feature dtB rowsB "A" <
        get_entropy_df dtB rowsB - get_entropy_feature dtB rowsB "B" := by
  refine ⟨sel_B, by decide, by decide, ?_⟩
  rw [entropy_feature_B_A, entropy_feature_B_B]
  have := log_two_pos
  linarith

/-- C2, amended.  With a non-empty feature list and non-identical gains,
`get_lowest_entropy_feature` returns the entry of the data frame's
non-target column list (not of the feature list) at the index of the
first maximum of the gains computed over the feature list; ties are
broken towards the earliest index. -/
theorem claim2_amended (dt : Dtree) (rows : List Row)
    (hne : dt.features ≠ [])
    (hdiff : (uniqueList (dt.features.map
      (fun f => get_entropy_df dt rows - get_entropy_feature dt rows f))).length ≠ 1) :
    ∃ i, ∃ hi : i < (dt.features.map
      (fun f => get_entropy_df dt rows - get_entropy_feature dt rows f)).length,
      get_lowest_entropy_feature dt rows =
        (dt.cols.filter (fun c => c != dt.target)).get? i ∧
      (∀ j, ∀ hj : j < (dt.features.map
          (fun f => get_entropy_df dt rows - get_entropy_feature dt rows f)).length,
        (dt.features.map
          (fun f => get_entropy_df dt rows - get_entropy_feature dt rows f)).get ⟨j, hj⟩ ≤
        (dt.features.map
          (fun f => get_entropy_df dt rows - get_entropy_feature dt rows f)).get ⟨i, hi⟩) ∧
      (∀ j, ∀ hj : j < i,
        (dt.features.map
          (fun f => get_entropy_df dt rows - get_entropy_feature dt rows f)).get
            ⟨j, Nat.lt_trans hj hi⟩ <
        (dt.features.map
          (fun f => get_entropy_df dt rows - get_entropy_feature dt rows f)).get
            ⟨i, hi⟩) :=
  get_lowest_some_spec dt rows hne hdiff

/-- The gains on `rowsB` are pairwise distinct, so the singleton test
fails there. -/
theorem gains_B_not_singleton :
    (uniqueList (dtB.features.map
      (fun f => get_entropy_df dtB rowsB - get_entropy_feature dtB rowsB f))).length
      ≠ 1 := by
  rw [show dtB.features = ["B", "A"] from rfl]
  simp only [List.map_cons, List.map_nil]
  rw [entropy_feature_B_B, entropy_feature_B_A]
  have hne : ¬(get_entropy_df dtB rowsB - Real.log 2 =
      get_entropy_df dtB rowsB - 0) := by
    intro h
    have h2 : Real.log 2 = 0 := by linarith
    exact absurd h2 (ne_of_gt log_two_pos)
  simp only [uniqueList, removeVal]
  rw [if_neg hne]
  simp

/-- C2, witness: the amended claim applied to the concrete table
`rowsB`. -/
theorem claim2_witness :
    ∃ i, ∃ hi : i < (dtB.features.map
      (fun f => get_entropy_df dtB rowsB - get_entropy_feature dtB rowsB f)).length,
      get_lowest_entropy_feature dtB rowsB =
        (dtB.cols.filter (fun c => c != dtB.target)).get? i ∧
      (∀ j, ∀ hj : j < (dtB.features.map
          (fun f => get_entropy_df dtB rowsB - get_entropy_feature dtB rowsB f)).length,
        (dtB.features.map
          (fun f => get_entropy_df dtB rowsB - get_entropy_feature dtB rowsB f)).get
            ⟨j, hj⟩ ≤
        (dtB.features.map
          (fun f => get_entropy_df dtB rowsB - get_entropy_feature dtB rowsB f)).get
            ⟨i, hi⟩) ∧
      (∀ j, ∀ hj : j < i,
        (dtB.features.map
          (fun f => get_entropy_df dtB rowsB - get_entropy_feature dtB rowsB f)).get
            ⟨j, Nat.lt_trans hj hi⟩ <
        (dtB.features.map
          (fun f => get_entropy_df dtB rowsB - get_entropy_feature dtB rowsB f)).get
            ⟨i, hi⟩) :=
  claim2_amended dtB rowsB (by decide) gains_B_not_singleton

/-- C3, counterexample.  On the nine-row table `rowsC` with depth
ceiling 2, the builder's output differs from the spec-modelled builder
that recurses at one more than the *call's* depth: the code's loop
mutates its depth counter, so the second impure value `b` of the root
is processed at depth 2 rather than 1, and its subtree is truncated. -/
theorem claim3_counterexample :
    build_tree dtC rowsC none 0 ≠ build_tree_claim dtC rowsC none 0 := by
  rw [build_C_actual, build_C_claim]
  simp

/-- C3, amended.  For an impure sub-partition below the ceiling the
builder recurses with depth one greater than the *loop's current depth
counter* — which starts at the call's depth and is incremented once per
recursed value, so from the second recursed value on it exceeds the
call's depth — and records the returned subtree (or `None`) under the
value's key; the loop then continues with the incremented counter. -/
theorem claim3_amended (dt : Dtree) (rows : List Row) (node value : String)
    (rest : List String) (depth : Nat)
    (himp : (uniqueList ((rows.filter (fun r => r node == value)).map
      (fun r => r dt.target))).length ≠ 1)
    (hdep : depth < dt.max_depth) :
    build_children dt rows node (value :: rest) depth =
      (value, build_tree dt (rows.filter (fun r => r node == value)) none (depth + 1)) ::
        build_children dt rows node rest (depth + 1) :=
  build_children_impure_step dt rows node value rest depth himp hdep

/-- C3, witness: the amended claim applied to a concrete impure value
below the ceiling. -/
theorem claim3_witness :
    build_children dtW3 rowsW4 "F" ["a"] 0 =
      ("a", build_tree dtW3 (rowsW4.filter (fun r => r "F" == "a")) none 1) ::
        build_children dtW3 rowsW4 "F" [] 1 :=
  claim3_amended dtW3 rowsW4 "F" "a" [] 0 (by decide) (by decide)

/-- C4.  When the value loop meets an impure sub-partition while its
depth counter has reached the ceiling, it stops at once: nothing is
recorded for that value, and none of the remaining sibling values is
ever added to the node's children — the node is returned as built so
far (sibling truncation, not a per-branch skip). -/
theorem claim4_truncation (dt : Dtree) (rows : List Row) (node value : String)
    (rest : List String) (depth : Nat)
    (himp : (uniqueList ((rows.filter (fun r => r node == value)).map
      (fun r => r dt.target))).length ≠ 1)
    (hdep : dt.max_depth ≤ depth) :
    build_children dt rows node (value :: rest) depth = [] :=
  build_children_truncate_step dt rows node value rest depth himp hdep

/-- C4, witness: the truncation applied to a concrete impure value at
ceiling 0. -/
theorem claim4_witness : build_children dtW4 rowsW4 "F" ["a"] 0 = [] :=
  claim4_truncation dtW4 rowsW4 "F" "a" [] 0 (by decide) (by decide)

/-- C5.  For a non-empty feature list no longer than the non-target
column list, the selector returns `None` exactly when every feature
yields the identical (exactly equal) gain — including the degenerate
one-feature case, where the gain set is always a singleton. -/
theorem claim5_none_iff (dt : Dtree) (rows : List Row)
    (h1 : dt.features ≠ [])
    (h2 : dt.features.length ≤ (dt.cols.filter (fun c => c != dt.target)).length) :
    (get_lowest_entropy_feature dt rows = none ↔
      ∀ f ∈ dt.features, ∀ g ∈ dt.features,
        get_entropy_df dt rows - get_entropy_feature dt rows f =
          get_entropy_df dt rows - get_entropy_feature dt rows g) :=
  get_lowest_none_iff dt rows h1 h2

/-- C5, witness: on scenario A's single-feature table the right-to-left
direction forces the selector to return `None`. -/
theorem claim5_witness : get_lowest_entropy_feature (dtA 5) rowsA = none :=
  (claim5_none_iff (dtA 5) rowsA (by decide) (by decide)).mpr (by
    intro f hf g hg
    rw [show (dtA 5).features = ["F"] from rfl] at hf hg
    have hf2 : f = "F" := by simpa using hf
    have hg2 : g = "F" := by simpa using hg
    rw [hf2, hg2])

/-- C6.  `entropyOfLabels` is `0` whenever the target column has exactly
one distinct value (any row count at least 1), and `log2 k` whenever the
`k` distinct labels occur in exactly equal counts. -/
theorem claim6_entropy_values :
    (∀ (dt : Dtree) (rows : List Row),
      (uniqueList (rows.map (fun r => r dt.target))).length = 1 →
        get_entropy_df dt rows = 0) ∧
    (∀ (dt : Dtree) (rows : List Row) (m : Nat), 0 < m →
      (∀ v ∈ uniqueList (rows.map (fun r => r dt.target)),
        (rows.map (fun r => r dt.target)).count v = m) →
      get_entropy_df dt rows =
        Real.logb 2 ((uniqueList (rows.map (fun r => r dt.target))).length)) :=
  ⟨entropy_df_pure, entropy_df_uniform⟩

/-- C6, witness: a pure one-row table has entropy `0`, and scenario A's
table (two labels, two rows each) has entropy `log2 2`. -/
theorem claim6_witness :
    get_entropy_df (dtA 5) [mkRowFT "a" "Y"] = 0 ∧
      get_entropy_df (dtA 5) rowsA =
        Real.logb 2 ((uniqueList (rowsA.map (fun r => r (dtA 5).target))).length) :=
  ⟨claim6_entropy_values.1 (dtA 5) [mkRowFT "a" "Y"] (by decide),
   claim6_entropy_values.2 (dtA 5) rowsA 2 (by decide) (by decide)⟩

/-- C7.  Building is a pure function — two runs on the same table,
configuration and depth give syntactically the same tree — and the
value-discovery order used throughout (`pandas.unique`) is exactly the
first-occurrence scan of the spec. -/
theorem claim7_deterministic :
    (∀ (dt : Dtree) (rows : List Row) (tree : Option ID3Tree) (depth : Nat),
      build_tree dt rows tree depth = build_tree dt rows tree depth) ∧
    (∀ l : List String, uniqueList l = firstOccur l) := by
  refine ⟨fun _ _ _ _ => rfl, fun l => ?_⟩
  rw [firstOccur, firstOccurAux_eq]
  simp

/-- C8.  When feature selection returns `None`, `build_tree` returns the
partial tree passed to it (`None` at a fresh node) without any failure;
and in a parent's loop an impure value whose recursive build returned
`None` is recorded as a `None` child while the loop continues — the
condition is local to the branch. -/
theorem claim8_none_selection :
    (∀ (dt : Dtree) (rows : List Row) (tree : Option ID3Tree) (depth : Nat),
      get_lowest_entropy_feature dt rows = none →
        build_tree dt rows tree depth = tree) ∧
    (∀ (dt : Dtree) (rows : List Row) (node value : String) (rest : List String)
      (depth : Nat),
      (uniqueList ((rows.filter (fun r => r node == value)).map
        (fun r => r dt.target))).length ≠ 1 →
      depth < dt.max_depth →
      build_tree dt (rows.filter (fun r => r node == value)) none (depth + 1) = none →
      build_children dt rows node (value :: rest) depth =
        (value, none) :: build_children dt rows node rest (depth + 1)) := by
  refine ⟨build_tree_sel_none, ?_⟩
  intro dt rows node value rest depth himp hdep hnone
  rw [build_children_impure_step dt rows node value rest depth himp hdep, hnone]

/-- C8, witness: on scenario A's table selection fails and the build
returns the `None` it was seeded with. -/
theorem claim8_witness : build_tree (dtA 5) rowsA none 0 = none :=
  claim8_none_selection.1 (dtA 5) rowsA none 0 (sel_A 5)

/-- C9.  On an empty subtable `get_entropy_df` runs its loop zero times
and returns the initial accumulator `0`. -/
theorem claim9_empty_entropy : ∀ dt : Dtree, get_entropy_df dt [] = 0 := by
  intro dt
  simp [get_entropy_df, uniqueList]

/-- C10.  The selected feature is tested by truthiness, so a selected
feature named by the empty string abandons the branch exactly as a
`None` selection does: the passed tree is returned unchanged. -/
theorem claim10_falsy_feature :
    ∀ (dt : Dtree) (rows : List Row) (tree : Option ID3Tree) (depth : Nat),
      get_lowest_entropy_feature dt rows = some "" →
        build_tree dt rows tree depth = tree :=
  build_tree_sel_empty

/-- C10, witness: on `rowsE` the informative feature named `""` *is*
selected, yet the build abandons the branch and returns `None`. -/
theorem claim10_witness :
    get_lowest_entropy_feature dtE rowsE = some "" ∧
      build_tree dtE rowsE none 0 = none :=
  ⟨sel_E, claim10_falsy_feature dtE rowsE none 0 sel_E⟩
